import Mathlib

/-!
# Verification of `truth` (Touhou script compiler/decompiler) against its specification

This development shallowly embeds the parts of the `truth` compiler that the
claims under scrutiny are about:

* constant folding of integer expressions (`src/passes/const_simplify.rs`),
* the stackless lowerer (`src/llir/lower/stackless.rs`), including scratch
  register assignment,
* intrinsic ABI matching (`src/llir/intrinsic.rs`),
* early-STD label encoding (`src/formats/std.rs`, `src/std.rs`),
* name resolution over rib stacks (`src/resolve/mod.rs`).

Machine integers (`i32`) are embedded as `Int` together with explicit wrapping
modulo `2^32`; `f32` payloads are embedded as exact rationals (no claim below
depends on IEEE rounding — floats only occur as literal payloads and as
integer-valued register ids).  Rust panics (`assert!`, `wrapping_div` with a
zero divisor, `expect`) are modelled as explicit failure outcomes.
-/

namespace Truth

/-! ## 32-bit integer model -/

/-- The unsigned 32-bit view of a (conceptually `i32`) integer: its bit
pattern as a natural number in `[0, 2^32)`. -/
def toBits32 (x : Int) : Nat := (x % (2:Int)^32).toNat

/-- Reinterpret an unsigned 32-bit bit pattern as a signed `i32` value. -/
def toSigned32 (n : Nat) : Int := if n < 2^31 then (n : Int) else (n : Int) - 2^32

/-- Wrap an unbounded integer into the `i32` range `[-2^31, 2^31)`
(two's-complement wrapping, as performed by Rust's `wrapping_*` operations). -/
def wrap32 (x : Int) : Int := (x + 2^31) % 2^32 - 2^31

/-- The `i32` value range. -/
def inRange32 (x : Int) : Prop := -(2:Int)^31 ≤ x ∧ x < 2^31

instance (x : Int) : Decidable (inRange32 x) := by unfold inRange32; infer_instance

/-! ## AST operator enums

`BinOpKind` is taken from `src/ast/mod.rs` (the newest AST in the snapshot),
which includes the three shift operators.  `UnopKind` and `AssignOpKind`
follow the variants handled by `src/passes/const_simplify.rs` and
`src/llir/lower/stackless.rs`. -/

inductive BinOpKind
  | Add | Sub | Mul | Div | Rem
  | Eq | Ne | Lt | Le | Gt | Ge
  | BitOr | BitXor | BitAnd
  | LogicOr | LogicAnd
  | ShiftLeft | ShiftRightSigned | ShiftRightUnsigned
  deriving DecidableEq, Repr

inductive UnopKind
  | Neg | Not | Sin | Cos | Sqrt
  /-- the cast `int(_)` (`_S` in older sources): float to int -/
  | CastI
  /-- the cast `float(_)` (`_f` in older sources): int to float -/
  | CastF
  deriving DecidableEq, Repr

inductive AssignOpKind
  | Assign | Add | Sub | Mul | Div | Rem
  deriving DecidableEq, Repr

/-! ## Scalar types and values -/

inductive ScalarType
  | int | float | string
  deriving DecidableEq, Repr

/-- `value::ScalarValue`.  The `f32` payload is embedded as an exact rational:
every float literal appearing in the claims is exactly representable, and no
claim depends on IEEE rounding of float arithmetic. -/
inductive ScalarValue
  | int (v : Int)
  | float (q : Rat)
  deriving DecidableEq, Repr

def ScalarValue.ty : ScalarValue → ScalarType
  | .int _ => .int
  | .float _ => .float

/-! ## Constant folding (`src/passes/const_simplify.rs`)

`BinopKind::const_eval_int` in the snapshot's `const_simplify.rs` has no
arms for the three shift operators (the snapshot's `const_simplify.rs`
predates the AST that contains them); their folding is modelled from the
spec, see the doc comment below.

Rust's `i32::wrapping_div` / `i32::wrapping_rem` panic when the divisor is
zero; the panic is modelled by returning `none`. -/

/-- Rust `Int.tdiv`-style truncated division (what Rust's `/` on `i32` does
before wrapping). -/
def rustDiv (a b : Int) : Int := Int.tdiv a b

def rustRem (a b : Int) : Int := Int.tmod a b

/-- The effective shift amount: Rust's `wrapping_shl`/`wrapping_shr` mask the
shift count by the bit width minus one. -/
def shiftAmt (b : Int) : Nat := (b % 32).toNat

/-- `const_eval_int` for the three shift operators.

Modelled from the spec: the shift arms of integer constant folding are not
present in the snapshot's `src/passes/const_simplify.rs` (only the AST enum
`src/ast/mod.rs` declares `<<`, `>>`, `>>>`).  Per the spec (§4.8
Const-simplify): shift-right `>>` is arithmetic, `>>>` is unsigned
(logical), and integer overflow wraps.  The operations are defined on the
32-bit two's-complement bit pattern of the left operand. -/
def constEvalIntShift (op : BinOpKind) (a b : Int) : Int :=
  let s := shiftAmt b
  match op with
  | .ShiftLeft => toSigned32 ((toBits32 a * 2^s) % 2^32)
  | .ShiftRightSigned =>
      -- arithmetic shift: divide the bits, then fill the vacated high bits
      -- with copies of the sign bit
      toSigned32 (toBits32 a / 2^s + (toBits32 a / 2^31) * (2^32 - 2^(32-s)))
  | .ShiftRightUnsigned => toSigned32 (toBits32 a / 2^s)
  | _ => 0

/-- `BinopKind::const_eval_int` (src/passes/const_simplify.rs lines 76–95),
extended with the spec-modelled shift arms (`constEvalIntShift`).
`none` models the Rust panic of `wrapping_div`/`wrapping_rem` on a zero
divisor. -/
def const_eval_int (op : BinOpKind) (a b : Int) : Option Int :=
  match op with
  | .Add => some (wrap32 (a + b))
  | .Sub => some (wrap32 (a - b))
  | .Mul => some (wrap32 (a * b))
  | .Div => if b = 0 then none else some (wrap32 (rustDiv a b))
  | .Rem => if b = 0 then none else some (wrap32 (rustRem a b))
  | .Eq => some (if a = b then 1 else 0)
  | .Ne => some (if a ≠ b then 1 else 0)
  | .Lt => some (if a < b then 1 else 0)
  | .Le => some (if a ≤ b then 1 else 0)
  | .Gt => some (if a > b then 1 else 0)
  | .Ge => some (if a ≥ b then 1 else 0)
  | .LogicOr => some (if a = 0 then b else a)
  | .LogicAnd => some (if a = 0 then 0 else b)
  | .BitXor => some (toSigned32 (Nat.xor (toBits32 a) (toBits32 b)))
  | .BitAnd => some (toSigned32 (Nat.land (toBits32 a) (toBits32 b)))
  | .BitOr => some (toSigned32 (Nat.lor (toBits32 a) (toBits32 b)))
  | .ShiftLeft | .ShiftRightSigned | .ShiftRightUnsigned =>
      some (constEvalIntShift op a b)

/-- Which binary operators fold on float constants
(`BinopKind::const_eval_float`, src/passes/const_simplify.rs lines 97–116:
arms returning `Some` fold, arms returning `None` do not).  The bitwise,
logical and shift operators do not fold on floats. -/
def const_eval_float_folds : BinOpKind → Bool
  | .Add | .Sub | .Mul | .Div | .Rem => true
  | .Eq | .Ne | .Lt | .Le | .Gt | .Ge => true
  | .LogicOr | .LogicAnd => false
  | .BitXor | .BitAnd | .BitOr => false
  | .ShiftLeft | .ShiftRightSigned | .ShiftRightUnsigned => false

/-- The value of a folding float operation (exact rational arithmetic stands
in for `f32` arithmetic; exact on every input any claim evaluates). -/
def const_eval_float_value (op : BinOpKind) (a b : Rat) : ScalarValue :=
  match op with
  | .Add => .float (a + b)
  | .Sub => .float (a - b)
  | .Mul => .float (a * b)
  | .Div => .float (a / b)
  | .Rem => .float (a - b * ((a / b).floor : Rat))
  | .Eq => .int (if a = b then 1 else 0)
  | .Ne => .int (if a ≠ b then 1 else 0)
  | .Lt => .int (if a < b then 1 else 0)
  | .Le => .int (if a ≤ b then 1 else 0)
  | .Gt => .int (if a > b then 1 else 0)
  | .Ge => .int (if a ≥ b then 1 else 0)
  | _ => .int 0

/-- The per-operator operand type requirement (`binop_check` in
`src/passes/type_check.rs`: arithmetic and comparison operators require a
numeric operand type, bitwise/logical — and, per the spec, shift — operators
require int; both operands must then have the same type). -/
def binop_type_ok (op : BinOpKind) (a b : ScalarType) : Bool :=
  (match op with
   | .Add | .Sub | .Mul | .Div | .Rem
   | .Eq | .Ne | .Lt | .Le | .Gt | .Ge => a == ScalarType.int || a == ScalarType.float
   | .BitXor | .BitAnd | .BitOr | .LogicOr | .LogicAnd
   | .ShiftLeft | .ShiftRightSigned | .ShiftRightUnsigned => a == ScalarType.int)
  && a == b

/-- The outcome of `Sp<BinopKind>::const_eval`
(src/passes/const_simplify.rs lines 64–72): a type check, then the
per-type evaluation.  `panicked` models the Rust panics (zero divisor, and
the `.expect("(bug!) type_check should fail...")` on a non-folding float
operator that somehow passed the type check — unreachable here). -/
inductive EvalOutcome
  | ok (v : ScalarValue)
  | typeError
  | panicked
  deriving DecidableEq, Repr

def binop_const_eval (op : BinOpKind) (a b : ScalarValue) : EvalOutcome :=
  if ¬ binop_type_ok op a.ty b.ty then .typeError
  else match a, b with
    | .int x, .int y =>
        match const_eval_int op x y with
        | some v => .ok (.int v)
        | none => .panicked
    | .float x, .float y =>
        if const_eval_float_folds op then .ok (const_eval_float_value op x y)
        else .panicked
    | _, _ => .panicked

/-! ## Variables and registers

`var::RegId`, `var::LocalId`, `var::VarId` and the resolved form of
`ast::Var` are not under `src/` in this snapshot (the lowerer
`src/llir/lower/stackless.rs` imports them from the missing `crate::var`);
they are trivial data declarations reconstructed from their uses there. -/

/-- `var::RegId`: the engine-side register number (an `i32`, may be negative). -/
abbrev RegId := Int

/-- `var::LocalId`: a dense id for a local variable or temporary. -/
abbrev LocalId := Nat

/-- Source spans, modelled as opaque tokens (only identity matters for the
diagnostics the claims mention). -/
abbrev Span := Nat

abbrev Ident := String

inductive VarId
  | reg (r : RegId)
  | local (l : LocalId)
  deriving DecidableEq, Repr

inductive VarSigil
  | int | float
  deriving DecidableEq, Repr

def VarSigil.toTy : VarSigil → ScalarType
  | .int => .int
  | .float => .float

/-- `ScalarType::sigil` (`$` for int, `%` for float, none for strings). -/
def ScalarType.sigil : ScalarType → Option VarSigil
  | .int => some .int
  | .float => some .float
  | .string => none

/-- The resolved form of `ast::Var` — the only form that reaches the lowerer
(`Var::Named` panics there, see `lower_var_to_arg` in stackless.rs). -/
structure Var where
  ty_sigil : Option VarSigil
  var_id : VarId
  deriving DecidableEq, Repr

/-- `Var::eq_upto_ty` as used by `expr_uses_var` (stackless.rs line 788):
two variables are the same variable up to read type exactly when they
resolve to the same storage (same register id or same local id), the sigil
being ignored.  The function body itself is not in the snapshot; its
semantics follow from its name, from the older generation's use on
`Var::Unnamed { ty, number }` (equal `number`, `ty` ignored), and from the
aliasing test in tests/integration/general.rs. -/
def Var.eq_upto_ty (a b : Var) : Bool := a.var_id == b.var_id

/-! ## Expressions -/

inductive Expr
  | litInt (value : Int)
  | litFloat (q : Rat)
  | litString (s : String)
  | var (v : Var)
  | binop (a : Expr) (op : BinOpKind) (b : Expr)
  | unop (op : UnopKind) (b : Expr)
  | ternary (cond left right : Expr)
  | call (func : Ident) (args : List Expr)

mutual

/-- `expr_uses_var` (stackless.rs lines 778–797): does the expression contain
a variable equal to `var` up to read type? -/
def expr_uses_var (e : Expr) (var : Var) : Bool :=
  match e with
  | .litInt _ | .litFloat _ | .litString _ => false
  | .var v => var.eq_upto_ty v
  | .binop a _ b => expr_uses_var a var || expr_uses_var b var
  | .unop _ b => expr_uses_var b var
  | .ternary c l r => expr_uses_var c var || expr_uses_var l var || expr_uses_var r var
  | .call _ args => exprs_use_var args var
  termination_by structural e

def exprs_use_var (es : List Expr) (var : Var) : Bool :=
  match es with
  | [] => false
  | e :: rest => expr_uses_var e var || exprs_use_var rest var
  termination_by structural es

end

/-! ## Low-level statements (`llir::lower::{LowerStmt, LowerInstr, LowerArg}`,
`llir::SimpleArg`)

`SimpleArg` itself is in a module missing from the snapshot; it is
reconstructed from its uses in stackless.rs (`SimpleArg::from_reg`,
`get_reg_id`) and from the older generation's `RawArg { bits, is_var }`. -/

inductive RawValue
  | int (v : Int)
  | float (q : Rat)
  | str (s : String)
  deriving DecidableEq, Repr

structure SimpleArg where
  value : RawValue
  is_reg : Bool
  deriving DecidableEq, Repr

/-- `SimpleArg::from_reg`: encode a register reference with its read type
(int registers carry the id as an integer, float registers carry it as the
float of the same value). -/
def SimpleArg.from_reg (r : RegId) (ty : ScalarType) : SimpleArg :=
  { value := match ty with
      | .int => .int r
      | .float => .float (r : Rat)
      | .string => .int r   -- unreachable: registers never have string type
    is_reg := true }

/-- `SimpleArg::get_reg_id`: the register id of a register-flagged argument
(float-typed register ids are truncated `as i32`). -/
def SimpleArg.get_reg_id (a : SimpleArg) : Option RegId :=
  if a.is_reg then
    match a.value with
    | .int v => some v
    | .float q => some (q.num.tdiv (q.den : Int))
    | .str _ => none   -- unreachable in the source
  else none

inductive LowerArg
  | raw (arg : SimpleArg)
  | local (local_id : LocalId) (read_ty : ScalarType)
  | label (name : Ident)
  | timeOf (name : Ident)
  deriving DecidableEq, Repr

structure LowerInstr where
  time : Int
  opcode : Nat
  args : List LowerArg
  deriving DecidableEq, Repr

inductive LowerStmt
  | instr (i : LowerInstr)
  | label (time : Int) (name : Ident)
  | regAlloc (local_id : LocalId) (cause : Span)
  | regFree (local_id : LocalId)
  deriving DecidableEq, Repr

/-! ## Intrinsics and argument encodings -/

/-- `IntrinsicInstrKind` (src/llir/intrinsic.rs lines 72–115). -/
inductive IKind
  | jmp
  | interruptLabel
  | assignOp (op : AssignOpKind) (ty : ScalarType)
  | binop (op : BinOpKind) (ty : ScalarType)
  | unop (op : UnopKind) (ty : ScalarType)
  | countJmp
  | condJmp (op : BinOpKind) (ty : ScalarType)
  | condJmp2A (ty : ScalarType)
  | condJmp2B (op : BinOpKind)
  deriving DecidableEq, Repr

/-- `ArgEncoding`: single-character argument encodings of an instruction
signature (spec §4.1; variants per their uses in src/llir/intrinsic.rs and
src/instr.rs). -/
inductive ArgEncoding
  /-- `S`: 32-bit signed int -/
  | dword
  /-- `C`: 32-bit int shown as hex -/
  | color
  /-- `f`: 32-bit float -/
  | float
  /-- `o`: jump offset -/
  | jumpOffset
  /-- `t`: jump time -/
  | jumpTime
  /-- `_`: zero padding -/
  | padding
  /-- `z`/`m`: string -/
  | str
  deriving DecidableEq, Repr

/-- The expression type an encoding accepts (src/instr.rs lines 373–376). -/
def ArgEncoding.expr_type : ArgEncoding → ScalarType
  | .padding | .color | .dword | .jumpOffset | .jumpTime => .int
  | .float => .float
  | .str => .string

/-- Strip the trailing run of `_` padding encodings. -/
def drop_trailing_padding (encs : List ArgEncoding) : List ArgEncoding :=
  (encs.reverse.dropWhile (· == ArgEncoding.padding)).reverse

/-- `Signature::min_args`: trailing padding args may be omitted. -/
def min_args (encs : List ArgEncoding) : Nat := (drop_trailing_padding encs).length

/-! ## Formats and the type system context -/

/-- The per-format hooks the lowerer consults (`InstrFormat` in
src/instr.rs lines 1190–1214, dyn-dispatched in stackless.rs). -/
structure InstrFormat where
  intrinsic_opcodes : IKind → Option Nat
  general_use_regs : ScalarType → List RegId
  jump_has_time_arg : Bool
  is_th06_anm_terminating_instr : Nat → Bool
  instr_disables_scratch_regs : Nat → Bool
  /-- encode a label's byte offset into argument bits; `none` models the
  assertion failure of formats that reject some offsets (early STD). -/
  encode_label : Nat → Option Nat
  instr_size : LowerInstr → Nat

/-- The pieces of `TypeSystem` the lowerer reads (the struct itself is in a
module missing from the snapshot; fields reconstructed from its uses). -/
structure TypeSystem where
  /-- declared type of a register (mapfile `!gvar_types`) -/
  reg_ty : RegId → Option ScalarType
  /-- instruction aliases: `resolve_func_aliases(..).as_ins()` -/
  func_ins : Ident → Option Nat
  /-- instruction signatures -/
  ins_sig : Nat → Option (List ArgEncoding)
  /-- return type of a callable, for `compute_type_shallow` on `Call` -/
  call_ret_ty : Ident → Option ScalarType

/-! ## The lowerer (`src/llir/lower/stackless.rs`)

In the source every lowering method pushes onto the append-only vector
`self.out`.  The embedding makes this writer-style: each function returns
the list of low-level statements it pushes, and the caller concatenates
them in push order.  The remaining mutable state (the temporaries table fed
by `declare_temporary`) is threaded explicitly as `TmpState`. -/

structure TmpState where
  next_tmp : LocalId
  local_ty : LocalId → Option ScalarType

/-- `Variables::declare_temporary`. -/
def TmpState.declare_temporary (st : TmpState) (ty : ScalarType) :
    LocalId × TmpState :=
  (st.next_tmp,
   { next_tmp := st.next_tmp + 1
     local_ty := fun l => if l = st.next_tmp then some ty else st.local_ty l })

inductive LowerErr
  | unsupported (span : Span)
  | featureNotSupported (span : Span)
  | typeError
  | unknownInstruction (name : Ident)
  | wrongArgCount (name : Ident)
  | unknownSignature (opcode : Nat)
  | statementAfterEnd (stmtSpan endSpan : Span)
  | duplicateLabel (name : Ident)
  | undefinedLabel (name : Ident)
  | labelEncodeFailed (name : Ident)
  | outOfFuel
  | bug
  deriving DecidableEq, Repr

/-- The read type of a variable: the sigil if present, else the declared
type (spec §4.4; `TypeSystem::var_read_type_from_ast`). -/
def var_read_ty (ts : TypeSystem) (st : TmpState) (v : Var) :
    Except LowerErr ScalarType :=
  match v.ty_sigil with
  | some s => .ok s.toTy
  | none =>
    match v.var_id with
    | .reg r =>
      match ts.reg_ty r with
      | some t => .ok t
      | none => .error .typeError
    | .local l =>
      match st.local_ty l with
      | some t => .ok t
      | none => .error .typeError

/-- `lower_var_to_arg` (stackless.rs lines 759–767). -/
def lower_var_to_arg (ts : TypeSystem) (st : TmpState) (v : Var) :
    Except LowerErr (LowerArg × ScalarType) := do
  let read_ty ← var_read_ty ts st v
  match v.var_id with
  | .reg r => .ok (.raw (SimpleArg.from_reg r read_ty), read_ty)
  | .local l => .ok (.local l read_ty, read_ty)

/-- `Expr::binop_ty` (src/passes/type_check.rs lines 565–580): output type
of a binary operator given the first operand's type. -/
def binop_result_ty (op : BinOpKind) (arg : ScalarType) : ScalarType :=
  match op with
  | .Add | .Sub | .Mul | .Div | .Rem => arg
  | _ => .int

/-- `Expr::unop_ty` (src/passes/type_check.rs lines 602–617). -/
def unop_result_ty (op : UnopKind) (arg : ScalarType) : ScalarType :=
  match op with
  | .Neg => arg
  | .Not => .int
  | .Sin | .Cos | .Sqrt => .float
  | .CastI => .int
  | .CastF => .float

/-- `unop_check` (src/passes/type_check.rs lines 583–596). -/
def unop_type_ok (op : UnopKind) (arg : ScalarType) : Bool :=
  match op with
  | .Neg => arg == ScalarType.int || arg == ScalarType.float
  | .CastF | .Not => arg == ScalarType.int
  | .CastI | .Sin | .Cos | .Sqrt => arg == ScalarType.float

/-- `compute_type_shallow` (`Expr::compute_ty`,
src/passes/type_check.rs lines 498–529). -/
def compute_ty (ts : TypeSystem) (st : TmpState) : Expr → Except LowerErr ScalarType
  | .litInt _ => .ok .int
  | .litFloat _ => .ok .float
  | .litString _ => .ok .string
  | .var v => var_read_ty ts st v
  | .binop a op _ => do .ok (binop_result_ty op (← compute_ty ts st a))
  | .unop op x => do .ok (unop_result_ty op (← compute_ty ts st x))
  | .ternary _ l _ => compute_ty ts st l
  | .call f _ =>
    match ts.call_ret_ty f with
    | some t => .ok t
    | none => .error .typeError

/-- `ExprClass` (stackless.rs lines 695–711). -/
inductive ExprClass
  | simple (lowered : LowerArg) (ty : ScalarType)
  | needsTemp (tmp_expr : Expr) (tmp_ty read_ty : ScalarType)

/-- `classify_expr` (stackless.rs lines 713–757): literals and variables are
simple; a cast needs a temporary of the cast's *input* type read as its
output type; everything else needs a temporary of its own type. -/
def classify_expr (ts : TypeSystem) (st : TmpState) (e : Expr) :
    Except LowerErr ExprClass :=
  match e with
  | .litInt v => .ok (.simple (.raw ⟨.int v, false⟩) .int)
  | .litFloat q => .ok (.simple (.raw ⟨.float q, false⟩) .float)
  | .litString s => .ok (.simple (.raw ⟨.str s, false⟩) .string)
  | .var v => do
      let (lowered, ty) ← lower_var_to_arg ts st v
      .ok (.simple lowered ty)
  | .unop .CastI b => .ok (.needsTemp b .float .int)
  | .unop .CastF b => .ok (.needsTemp b .int .float)
  | e => do
      let ty ← compute_ty ts st e
      .ok (.needsTemp e ty ty)

/-- `ScalarType::check_same`. -/
def check_same (a b : ScalarType) : Except LowerErr ScalarType :=
  if a = b then .ok a else .error .typeError

/-- `BinopKind::result_type`: type-check the operands and give the result
type (per `binop_check`/`binop_ty` in src/passes/type_check.rs). -/
def binop_result_type (op : BinOpKind) (a b : ScalarType) :
    Except LowerErr ScalarType :=
  if binop_type_ok op a b then .ok (binop_result_ty op a) else .error .typeError

/-- `UnopKind::result_type`. -/
def unop_result_type (op : UnopKind) (a : ScalarType) :
    Except LowerErr ScalarType :=
  if unop_type_ok op a then .ok (unop_result_ty op a) else .error .typeError

/-- `IntrinsicInstrs::get_opcode` (src/instr.rs lines 219–227). -/
def get_opcode (fmt : InstrFormat) (kind : IKind) (span : Span) :
    Except LowerErr Nat :=
  match fmt.intrinsic_opcodes kind with
  | some op => .ok op
  | none => .error (.featureNotSupported span)

/-- `Lowerer::allocate_temporary` (stackless.rs lines 676–688): declare a
fresh temporary, build a sigiled variable for it, and push `RegAlloc`. -/
def allocate_temporary (st : TmpState) (span : Span) (tmp_ty : ScalarType) :
    Except LowerErr (LocalId × Var × List LowerStmt × TmpState) :=
  let (local_id, st) := st.declare_temporary tmp_ty
  match tmp_ty.sigil with
  | none => .error .bug   -- source: `.expect("tried to allocate temporary for non-numeric type")`
  | some sigil =>
      .ok (local_id, ⟨some sigil, .local local_id⟩,
           [.regAlloc local_id span], st)

/-- `Expr::zero`. -/
def Expr.zero : ScalarType → Expr
  | .float => .litFloat 0
  | _ => .litInt 0

mutual

/-- `Lowerer::lower_assign_op` (stackless.rs lines 206–274). -/
def lower_assign_op (fuel : Nat) (ts : TypeSystem) (fmt : InstrFormat)
    (span : Span) (time : Int) (var : Var) (assign_op : AssignOpKind)
    (rhs : Expr) (st : TmpState) :
    Except LowerErr (List LowerStmt × TmpState) :=
  match fuel with
  | 0 => .error .outOfFuel
  | fuel + 1 => do
    let (lowered_var, ty_var) ← lower_var_to_arg ts st var
    match ← classify_expr ts st rhs with
    | .simple lowered_rhs ty_rhs => do
        let ty ← check_same ty_var ty_rhs
        let opcode ← get_opcode fmt (.assignOp assign_op ty) span
        .ok ([.instr ⟨time, opcode, [lowered_var, lowered_rhs]⟩], st)
    | .needsTemp tmp_expr tmp_ty read_ty =>
        if read_ty ≠ tmp_ty then do
          -- a cast: always evaluate into a temporary first
          let (tmp_id, tmp_as_expr, out1, st) ←
            define_temporary fuel ts fmt span time tmp_expr tmp_ty read_ty st
          let (out2, st) ← lower_assign_op fuel ts fmt span time var assign_op tmp_as_expr st
          .ok (out1 ++ out2 ++ [.regFree tmp_id], st)
        else
          match assign_op, tmp_expr with
          | .Assign, .binop a op b =>
              lower_assign_direct_binop fuel ts fmt span time var a op b st
          | .Assign, .unop op b =>
              lower_assign_direct_unop fuel ts fmt span time var op b st
          | .Assign, _ => .error (.unsupported span)
          | _, _ => do
              -- compound assignment with a complex rhs: split out a temporary
              let (tmp_id, tmp_as_expr, out1, st) ←
                define_temporary fuel ts fmt span time tmp_expr tmp_ty read_ty st
              let (out2, st) ← lower_assign_op fuel ts fmt span time var assign_op tmp_as_expr st
              .ok (out1 ++ out2 ++ [.regFree tmp_id], st)
  termination_by structural fuel

/-- `Lowerer::lower_assign_direct_binop` (stackless.rs lines 277–351). -/
def lower_assign_direct_binop (fuel : Nat) (ts : TypeSystem) (fmt : InstrFormat)
    (span : Span) (time : Int) (var : Var)
    (a : Expr) (binop : BinOpKind) (b : Expr) (st : TmpState) :
    Except LowerErr (List LowerStmt × TmpState) :=
  match fuel with
  | 0 => .error .outOfFuel
  | fuel + 1 => do
    match ← classify_expr ts st a with
    | .needsTemp ta tta tra =>
        if tta = tra && !(expr_uses_var b var) then do
          -- we can reuse the output variable!
          let (var_as_expr, out1, st) ←
            compute_temporary_expr fuel ts fmt span time var ta tta tra st
          let (out2, st) ←
            lower_assign_direct_binop fuel ts fmt span time var var_as_expr binop b st
          .ok (out1 ++ out2, st)
        else do
          -- we need a temporary, either due to the type cast or to avoid
          -- invalidating the other subexpression
          let (tmp_id, tmp_as_expr, out1, st) ←
            define_temporary fuel ts fmt span time ta tta tra st
          let (out2, st) ←
            lower_assign_direct_binop fuel ts fmt span time var tmp_as_expr binop b st
          .ok (out1 ++ out2 ++ [.regFree tmp_id], st)
    | .simple la tya =>
      match ← classify_expr ts st b with
      | .needsTemp tb ttb trb =>
          if ttb = trb && !(expr_uses_var a var) then do
            let (var_as_expr, out1, st) ←
              compute_temporary_expr fuel ts fmt span time var tb ttb trb st
            let (out2, st) ←
              lower_assign_direct_binop fuel ts fmt span time var a binop var_as_expr st
            .ok (out1 ++ out2, st)
          else do
            let (tmp_id, tmp_as_expr, out1, st) ←
              define_temporary fuel ts fmt span time tb ttb trb st
            let (out2, st) ←
              lower_assign_direct_binop fuel ts fmt span time var a binop tmp_as_expr st
            .ok (out1 ++ out2 ++ [.regFree tmp_id], st)
      | .simple lb tyb => do
          -- both operands are simple: emit one primitive instruction
          let (lowered_var, ty_var) ← lower_var_to_arg ts st var
          let ty_rhs ← binop_result_type binop tya tyb
          let ty ← check_same ty_var ty_rhs
          let opcode ← get_opcode fmt (.binop binop ty) span
          .ok ([.instr ⟨time, opcode, [lowered_var, la, lb]⟩], st)
  termination_by structural fuel

/-- `Lowerer::lower_assign_direct_unop` (stackless.rs lines 354–417). -/
def lower_assign_direct_unop (fuel : Nat) (ts : TypeSystem) (fmt : InstrFormat)
    (span : Span) (time : Int) (var : Var)
    (unop : UnopKind) (b : Expr) (st : TmpState) :
    Except LowerErr (List LowerStmt × TmpState) :=
  match fuel with
  | 0 => .error .outOfFuel
  | fuel + 1 => do
    if unop = .Neg then do
      -- `a = -b;` is treated as `a = 0 - b;`
      let ty ← compute_ty ts st b
      lower_assign_direct_binop fuel ts fmt span time var (Expr.zero ty) .Sub b st
    else
      match ← classify_expr ts st b with
      | .needsTemp tb ttb trb =>
          if ttb = trb then do
            -- unary operations can reuse their destination register
            let (var_as_expr, out1, st) ←
              compute_temporary_expr fuel ts fmt span time var tb ttb trb st
            let (out2, st) ←
              lower_assign_direct_unop fuel ts fmt span time var unop var_as_expr st
            .ok (out1 ++ out2, st)
          else do
            let (tmp_id, tmp_as_expr, out1, st) ←
              define_temporary fuel ts fmt span time tb ttb trb st
            let (out2, st) ←
              lower_assign_direct_unop fuel ts fmt span time var unop tmp_as_expr st
            .ok (out1 ++ out2 ++ [.regFree tmp_id], st)
      | .simple lb tyb => do
          let (lowered_var, ty_var) ← lower_var_to_arg ts st var
          let ty_rhs ← unop_result_type unop tyb
          let _ ← check_same ty_var ty_rhs
          match unop with
          | .CastI | .CastF | .Neg => .error .bug   -- unreachable in the source
          | .Not => .error (.unsupported span)      -- "logical not operator"
          | .Sin | .Cos | .Sqrt => do
              let opcode ← get_opcode fmt (.unop unop ty_var) span
              .ok ([.instr ⟨time, opcode, [lowered_var, lb]⟩], st)
  termination_by structural fuel

/-- `Lowerer::compute_temporary_expr` (stackless.rs lines 651–664): evaluate
an expression into an existing variable, returning an expression that reads
that variable back with the requested read type. -/
def compute_temporary_expr (fuel : Nat) (ts : TypeSystem) (fmt : InstrFormat)
    (span : Span) (time : Int) (var : Var)
    (tmp_expr : Expr) (tmp_ty read_ty : ScalarType) (st : TmpState) :
    Except LowerErr (Expr × List LowerStmt × TmpState) :=
  match fuel with
  | 0 => .error .outOfFuel
  | fuel + 1 => do
    let _ := tmp_ty
    let (out, st) ← lower_assign_op fuel ts fmt span time var .Assign tmp_expr st
    match read_ty.sigil with
    | none => .error .bug
    | some sg => .ok (.var { var with ty_sigil := some sg }, out, st)
  termination_by structural fuel

/-- `Lowerer::define_temporary` (stackless.rs lines 636–645): allocate a new
register-backed temporary and evaluate the expression into it. -/
def define_temporary (fuel : Nat) (ts : TypeSystem) (fmt : InstrFormat)
    (span : Span) (time : Int)
    (tmp_expr : Expr) (tmp_ty read_ty : ScalarType) (st : TmpState) :
    Except LowerErr (LocalId × Expr × List LowerStmt × TmpState) :=
  match fuel with
  | 0 => .error .outOfFuel
  | fuel + 1 => do
    let (local_id, var, out1, st) ← allocate_temporary st span tmp_ty
    let (var_as_expr, out2, st) ←
      compute_temporary_expr fuel ts fmt span time var tmp_expr tmp_ty read_ty st
    .ok (local_id, var_as_expr, out1 ++ out2, st)
  termination_by structural fuel

end

/-! ## Statements and the lowering driver -/

/-- `lower_goto_args` (stackless.rs lines 769–776). -/
def lower_goto_args (dest : Ident) (time : Option Int) : LowerArg × LowerArg :=
  (.label dest,
   match time with
   | some t => .raw ⟨.int t, false⟩
   | none => .timeOf dest)

/-- `Lowerer::lower_uncond_jump` (stackless.rs lines 419–432). -/
def lower_uncond_jump (fmt : InstrFormat) (span : Span) (stmt_time : Int)
    (dest : Ident) (goto_time : Option Int) :
    Except LowerErr (List LowerStmt) := do
  if goto_time.isSome ∧ ¬ fmt.jump_has_time_arg then
    .error (.unsupported span)
  else do
    let (label_arg, time_arg) := lower_goto_args dest goto_time
    let opcode ← get_opcode fmt .jmp span
    .ok [.instr ⟨stmt_time, opcode, [label_arg, time_arg]⟩]

structure StmtGoto where
  destination : Ident
  time : Option Int
  deriving DecidableEq, Repr

/-- The statement bodies handled by `Lowerer::lower_sub_ast`
(stackless.rs lines 42–89); `CondJump` lowering is omitted from the model
(no claim depends on it — statements of every body kind other than
`NoInstruction` are equally rejected after the end of an EoSD ANM script,
before their bodies are even inspected). -/
inductive StmtBody
  | jump (goto : StmtGoto)
  | assignment (var : Var) (op : AssignOpKind) (value : Expr)
  | interruptLabel (n : Int)
  | declaration (vars : List (Var × Option Expr))
  | exprStmt (e : Expr)
  | label (name : Ident)
  | scopeEnd (local_id : LocalId)
  | noInstruction

structure Stmt where
  span : Span
  time : Int
  body : StmtBody

/-- `Lowerer::lower_var_declaration` (stackless.rs lines 177–203). -/
def lower_var_declaration (fuel : Nat) (ts : TypeSystem) (fmt : InstrFormat)
    (span : Span) (stmt_time : Int) (vars : List (Var × Option Expr))
    (st : TmpState) : Except LowerErr (List LowerStmt × TmpState) :=
  match vars with
  | [] => .ok ([], st)
  | (var, init) :: rest => do
      match var.var_id with
      | .reg _ => .error .bug   -- source panics: "declared var somehow resolved as register!"
      | .local local_id => do
          let (out1, st) ←
            match init with
            | some e => lower_assign_op fuel ts fmt span stmt_time var .Assign e st
            | none => .ok ([], st)
          let (out2, st) ← lower_var_declaration fuel ts fmt span stmt_time rest st
          .ok (.regAlloc local_id span :: (out1 ++ out2), st)

/-- The positional-argument loop of `Lowerer::lower_instruction`
(stackless.rs lines 136–161): classify each argument, spill complex ones to
temporaries, and check each argument's type against the encoding. -/
def lower_instruction_args (fuel : Nat) (ts : TypeSystem) (fmt : InstrFormat)
    (span : Span) (time : Int)
    (encs : List ArgEncoding) (args : List Expr) (st : TmpState) :
    Except LowerErr (List LowerArg × List LocalId × List LowerStmt × TmpState) :=
  match encs, args with
  | _, [] => .ok ([], [], [], st)
  | [], _ :: _ => .error .bug   -- prevented by the arg-count check
  | enc :: encs, arg :: args => do
      match ← classify_expr ts st arg with
      | .simple lowered ty =>
          if ty ≠ enc.expr_type then .error .typeError
          else do
            let (rest, tmps, out, st) ← lower_instruction_args fuel ts fmt span time encs args st
            .ok (lowered :: rest, tmps, out, st)
      | .needsTemp te tt tr => do
          let (local_id, _, out1, st) ← define_temporary fuel ts fmt span time te tt tr st
          if tr ≠ enc.expr_type then .error .typeError
          else do
            let (rest, tmps, out2, st) ← lower_instruction_args fuel ts fmt span time encs args st
            .ok (.local local_id tr :: rest, local_id :: tmps, out1 ++ out2, st)

/-- `Lowerer::lower_instruction` (stackless.rs lines 117–174). -/
def lower_instruction (fuel : Nat) (ts : TypeSystem) (fmt : InstrFormat)
    (span : Span) (time : Int) (opcode : Nat) (name : Ident)
    (args : List Expr) (st : TmpState) :
    Except LowerErr (List LowerStmt × TmpState) := do
  match ts.ins_sig opcode with
  | none => .error (.unknownSignature opcode)
  | some encs =>
    if ¬ (min_args encs ≤ args.length ∧ args.length ≤ encs.length) then
      .error (.wrongArgCount name)
    else do
      let (low_args, tmps, out, st) ← lower_instruction_args fuel ts fmt span time encs args st
      .ok (out ++ [.instr ⟨time, opcode, low_args⟩]
             ++ tmps.reverse.map (fun id => .regFree id), st)

/-- One statement of `Lowerer::lower_sub_ast`'s dispatch (stackless.rs
lines 42–89).  Returns the pushed statements, the new temporaries state,
and the span of the statement when it was a call of the format's
terminating opcode. -/
def lower_stmt_body (fuel : Nat) (ts : TypeSystem) (fmt : InstrFormat)
    (stmt : Stmt) (st : TmpState) :
    Except LowerErr (List LowerStmt × TmpState × Option Span) :=
  match stmt.body with
  | .jump goto => do
      let out ← lower_uncond_jump fmt stmt.span stmt.time goto.destination goto.time
      .ok (out, st, none)
  | .assignment var op value => do
      let (out, st) ← lower_assign_op fuel ts fmt stmt.span stmt.time var op value st
      .ok (out, st, none)
  | .interruptLabel n => do
      let opcode ← get_opcode fmt .interruptLabel stmt.span
      .ok ([.instr ⟨stmt.time, opcode, [.raw ⟨.int n, false⟩]⟩], st, none)
  | .declaration vars => do
      let (out, st) ← lower_var_declaration fuel ts fmt stmt.span stmt.time vars st
      .ok (out, st, none)
  | .exprStmt e =>
      match e with
      | .call func args => do
          match ts.func_ins func with
          | none => .error (.unknownInstruction func)
          | some opcode => do
              let (out, st) ← lower_instruction fuel ts fmt stmt.span stmt.time opcode func args st
              .ok (out, st,
                   if fmt.is_th06_anm_terminating_instr opcode then some stmt.span else none)
      | _ => .error (.unsupported stmt.span)
  | .label name => .ok ([.label stmt.time name], st, none)
  | .scopeEnd local_id => .ok ([.regFree local_id], st, none)
  | .noInstruction => .ok ([], st, none)

/-- Whether a statement body is the virtual `NoInstruction`. -/
def StmtBody.is_no_instruction : StmtBody → Bool
  | .noInstruction => true
  | _ => false

/-- The driver loop of `Lowerer::lower_sub_ast` (stackless.rs lines 27–92)
with error recovery (`collect_with_recovery`): `end_span` remembers the
terminating call of an EoSD ANM script; once it is set, every following
statement other than `NoInstruction` is rejected with a "statement after
end of script" error that points at the statement and at the terminating
call, and is not lowered.  A statement whose lowering fails contributes its
error and the driver resumes with the next statement (the source keeps any
partial pushes of a failed statement; this model drops them — no theorem
below inspects the output stream of a failed statement). -/
def lower_sub_go (fuel : Nat) (ts : TypeSystem) (fmt : InstrFormat) :
    List Stmt → Option Span → TmpState → List LowerStmt → List LowerErr →
    List LowerStmt × TmpState × List LowerErr
  | [], _, st, out, errs => (out, st, errs)
  | stmt :: rest, some end_span, st, out, errs =>
      if stmt.body.is_no_instruction then
        lower_sub_go fuel ts fmt rest (some end_span) st out errs
      else
        lower_sub_go fuel ts fmt rest (some end_span) st out
          (errs ++ [.statementAfterEnd stmt.span end_span])
  | stmt :: rest, none, st, out, errs =>
      match lower_stmt_body fuel ts fmt stmt st with
      | .ok (out1, st, new_end) => lower_sub_go fuel ts fmt rest new_end st (out ++ out1) errs
      | .error e => lower_sub_go fuel ts fmt rest none st out (errs ++ [e])

/-- `Lowerer::lower_sub_ast`. -/
def lower_sub_ast (fuel : Nat) (ts : TypeSystem) (fmt : InstrFormat)
    (stmts : List Stmt) (st : TmpState) :
    List LowerStmt × TmpState × List LowerErr :=
  lower_sub_go fuel ts fmt stmts none st [] []

/-! ## Label resolution (`encode_labels`, src/instr.rs lines 934–1011) -/

structure RawLabelInfo where
  time : Int
  offset : Nat
  deriving DecidableEq, Repr

/-- `gather_label_info`: map each label to the time and byte offset of the
next instruction (byte offsets computed by summing `instr_size`). -/
def gather_label_info (fmt : InstrFormat) :
    Nat → List Ident → List (Ident × RawLabelInfo) → List LowerStmt →
    Except LowerErr (List (Ident × RawLabelInfo))
  | _, pending, out, [] =>
      -- source asserts there is no label after the last instruction
      if pending.isEmpty then .ok out else .error .bug
  | offset, pending, out, .label _time name :: rest =>
      gather_label_info fmt offset (pending ++ [name]) out rest
  | offset, pending, out, .instr i :: rest =>
      match pending.find? (fun n => (out.map Prod.fst).contains n) with
      | some n => .error (.duplicateLabel n)
      | none =>
          gather_label_info fmt (offset + fmt.instr_size i) []
            (out ++ pending.map (fun n => (n, ⟨i.time, offset⟩))) rest
  | offset, pending, out, _ :: rest => gather_label_info fmt offset pending out rest

def encode_label_arg (fmt : InstrFormat) (info : List (Ident × RawLabelInfo)) :
    LowerArg → Except LowerErr LowerArg
  | .label name =>
      match info.find? (fun p => p.1 = name) with
      | none => .error (.undefinedLabel name)
      | some (_, li) =>
          match fmt.encode_label li.offset with
          | none => .error (.labelEncodeFailed name)
          | some bits => .ok (.raw ⟨.int (toSigned32 bits), false⟩)
  | .timeOf name =>
      match info.find? (fun p => p.1 = name) with
      | none => .error (.undefinedLabel name)
      | some (_, li) => .ok (.raw ⟨.int li.time, false⟩)
  | arg => .ok arg

/-- `encode_labels`: replace `Label`/`TimeOf` args by their encoded values. -/
def encode_labels (fmt : InstrFormat) (initial_offset : Nat)
    (code : List LowerStmt) : Except LowerErr (List LowerStmt) := do
  let info ← gather_label_info fmt initial_offset [] [] code
  code.mapM fun stmt =>
    match stmt with
    | .instr i => do
        let args ← i.args.mapM (encode_label_arg fmt info)
        .ok (LowerStmt.instr { i with args := args })
    | s => .ok s

/-! ## Scratch register assignment (`assign_registers`,
stackless.rs lines 802–898) -/

/-- `get_used_regs` (stackless.rs lines 889–898): every register directly
referenced (register flag set) by any instruction argument. -/
def get_used_regs (code : List LowerStmt) : List RegId :=
  code.foldr
    (fun stmt acc =>
      match stmt with
      | .instr i =>
          (i.args.filterMap fun a =>
            match a with
            | .raw sa => sa.get_reg_id
            | _ => none) ++ acc
      | _ => acc)
    []

structure ScriptTooComplexData where
  cause : Span
  /-- the live temporaries of the exhausted type, as enumerated by the
  diagnostic's secondary labels -/
  live : List (RegId × ScalarType × Span)
  deriving DecidableEq, Repr

inductive AllocErr
  | scriptTooComplex (d : ScriptTooComplexData)
  | scratchDisabled (span : Span)
  | bug
  deriving DecidableEq, Repr

/-- The loop of `assign_registers`.  Besides the rewritten statement list it
returns the list of registers served by `RegAlloc`, in order (a ghost output
used only by the theorems; the source keeps this information implicitly in
`local_regs`). -/
def assign_registers_go (fmt : InstrFormat)
    (local_ty : LocalId → Option ScalarType) :
    List LowerStmt → (ScalarType → List RegId) →
    List (LocalId × RegId × ScalarType × Span) →
    Option Span → Bool →
    Except AllocErr (List LowerStmt × List RegId)
  | [], _, _, used_scratch, has_anti =>
      -- the post-loop check: scratch use with a scratch-disabling instruction
      if has_anti then
        match used_scratch with
        | some span => .error (.scratchDisabled span)
        | none => .ok ([], [])
      else .ok ([], [])
  | .regAlloc local_id cause :: rest, pools, local_regs, used_scratch, has_anti =>
      let used_scratch := some (used_scratch.getD cause)   -- `get_or_insert`
      match local_ty local_id with
      | none => .error .bug
      | some ty =>
        match pools ty with
        | [] =>
            .error (.scriptTooComplex
              ⟨cause,
               local_regs.filterMap fun e =>
                 if e.2.2.1 = ty then some (e.2.1, e.2.2.1, e.2.2.2) else none⟩)
        | reg :: pool_rest =>
            if (local_regs.find? (fun e => e.1 = local_id)).isSome then
              .error .bug   -- source asserts the insert finds nothing
            else do
              let pools := fun t => if t = ty then pool_rest else pools t
              let (code, allocs) ←
                assign_registers_go fmt local_ty rest pools
                  (local_regs ++ [(local_id, reg, ty, cause)]) used_scratch has_anti
              .ok (.regAlloc local_id cause :: code, reg :: allocs)
  | .regFree local_id :: rest, pools, local_regs, used_scratch, has_anti =>
      match local_ty local_id with
      | none => .error .bug
      | some inherent_ty =>
        match local_regs.find? (fun e => e.1 = local_id) with
        | none => .error .bug   -- source: "RegFree without RegAlloc!"
        | some (_, reg, _, _) => do
            let pools := fun t => if t = inherent_ty then reg :: pools t else pools t
            let local_regs := local_regs.filter (fun e => ¬ e.1 = local_id)
            let (code, allocs) ←
              assign_registers_go fmt local_ty rest pools local_regs used_scratch has_anti
            .ok (.regFree local_id :: code, allocs)
  | .instr i :: rest, pools, local_regs, used_scratch, has_anti =>
      let has_anti := has_anti || fmt.instr_disables_scratch_regs i.opcode
      let subst : LowerArg → Except AllocErr LowerArg := fun a =>
        match a with
        | .local lid rty =>
            match local_regs.find? (fun e => e.1 = lid) with
            | some (_, reg, _, _) => .ok (.raw (SimpleArg.from_reg reg rty))
            | none => .error .bug   -- source indexes `local_regs[&local_id]`
        | a => .ok a
      match i.args.mapM subst with
      | .error e => .error e
      | .ok args => do
          let (code, allocs) ←
            assign_registers_go fmt local_ty rest pools local_regs used_scratch has_anti
          .ok (.instr { i with args := args } :: code, allocs)
  | .label t n :: rest, pools, local_regs, used_scratch, has_anti => do
      let (code, allocs) ←
        assign_registers_go fmt local_ty rest pools local_regs used_scratch has_anti
      .ok (.label t n :: code, allocs)

/-- `assign_registers` (stackless.rs lines 802–886): collect the directly
used registers, remove them from the per-type general-use pools, then sweep
the statement list, serving `RegAlloc` from the pool head and returning
registers on `RegFree`. -/
def assign_registers (fmt : InstrFormat)
    (local_ty : LocalId → Option ScalarType) (code : List LowerStmt) :
    Except AllocErr (List LowerStmt × List RegId) :=
  let used := get_used_regs code
  let pools := fun ty => (fmt.general_use_regs ty).filter (fun r => ¬ used.contains r)
  assign_registers_go fmt local_ty code pools [] none false

/-! ## The complete per-sub pipeline
(`lower_sub_ast_to_instrs`, src/instr.rs lines 173–199) -/

inductive CompileErr
  | lower (errs : List LowerErr)
  | alloc (e : AllocErr)

/-- `lower_sub_ast_to_instrs`: lower, resolve labels, assign registers, and
keep only the instructions. -/
def lower_sub_ast_to_instrs (fuel : Nat) (ts : TypeSystem) (fmt : InstrFormat)
    (local_ty0 : LocalId → Option ScalarType) (first_tmp : LocalId)
    (stmts : List Stmt) : Except CompileErr (List LowerInstr) :=
  let st0 : TmpState := ⟨first_tmp, local_ty0⟩
  let (out, st, errs) := lower_sub_ast fuel ts fmt stmts st0
  if errs.isEmpty then
    match encode_labels fmt 0 out with
    | .error e => .error (.lower [e])
    | .ok code =>
      match assign_registers fmt st.local_ty code with
      | .error e => .error (.alloc e)
      | .ok (code, _) =>
          .ok (code.filterMap fun s =>
            match s with
            | .instr i => some i
            | _ => none)
  else .error (.lower errs)

/-! ## Intrinsic ABI matching (`src/llir/intrinsic.rs`)

The matcher works on the ABI's argument encodings paired with their
original positions (`abi.arg_encodings().enumerate()`); removals keep the
original indices of the surviving encodings. -/

structure UnrepresentablePadding where
  index : Nat
  count : Nat
  deriving DecidableEq, Repr

inductive JumpArgOrderKind
  | timeLoc
  | locTime
  /-- Always uses `timeof(destination)`. -/
  | loc
  deriving DecidableEq, Repr

structure JumpArgOrder where
  index : Nat
  kind : JumpArgOrderKind
  deriving DecidableEq, Repr

inductive OutOperandTypeKind
  /-- a float register written to file as an integer (EoSD ECL) -/
  | floatAsInt
  | natural
  deriving DecidableEq, Repr

structure OutOperandType where
  index : Nat
  kind : OutOperandTypeKind
  deriving DecidableEq, Repr

structure InputOperandType where
  index : Nat
  deriving DecidableEq, Repr

structure ImmediateInt where
  index : Nat
  deriving DecidableEq, Repr

inductive AbiErr
  | missingJumpOffset
  | nonConsecutiveJumpArgs
  | notEnoughArgs
  | operandUnexpectedEncoding (enc : ArgEncoding)
  | leftoverArg (enc : ArgEncoding) (index : Nat)
  deriving DecidableEq, Repr

/-- `UnrepresentablePadding::detect_and_remove` (intrinsic.rs lines
302–316): strip the trailing run of `_` paddings; `index` is the position
of the first stripped padding (the list's length when none). -/
def detect_and_remove_padding (encs : List (Nat × ArgEncoding)) :
    UnrepresentablePadding × List (Nat × ArgEncoding) :=
  let trailing := (encs.reverse.takeWhile (fun p => p.2 == ArgEncoding.padding)).length
  (⟨encs.length - trailing, trailing⟩, encs.take (encs.length - trailing))

/-- `remove_first_where` (intrinsic.rs lines 318–323). -/
def remove_first_where (p : α → Bool) : List α → Option (α × List α)
  | [] => none
  | x :: xs =>
    if p x then some (x, xs)
    else
      match remove_first_where p xs with
      | some (y, ys) => some (y, x :: ys)
      | none => none

/-- `JumpArgOrder::find_and_remove` (intrinsic.rs lines 325–349). -/
def find_and_remove_jump (encs : List (Nat × ArgEncoding)) :
    Except AbiErr (JumpArgOrder × List (Nat × ArgEncoding)) :=
  match remove_first_where (fun p => p.2 == ArgEncoding.jumpOffset) encs with
  | none => .error .missingJumpOffset
  | some ((offset_index, _), rest) =>
    match remove_first_where (fun p => p.2 == ArgEncoding.jumpTime) rest with
    | none => .ok (⟨offset_index, .loc⟩, rest)
    | some ((time_index, _), rest) =>
        if time_index = offset_index + 1 then .ok (⟨offset_index, .locTime⟩, rest)
        else if time_index + 1 = offset_index then .ok (⟨time_index, .timeLoc⟩, rest)
        else .error .nonConsecutiveJumpArgs

/-- `OutOperandType::remove` (intrinsic.rs lines 351–370). -/
def out_operand_remove (encs : List (Nat × ArgEncoding)) (ty_in_ast : ScalarType) :
    Except AbiErr (OutOperandType × List (Nat × ArgEncoding)) :=
  match encs with
  | [] => .error .notEnoughArgs
  | (index, encoding) :: rest =>
    match ty_in_ast, encoding with
    | .int, .dword => .ok (⟨index, .natural⟩, rest)
    | .float, .float => .ok (⟨index, .natural⟩, rest)
    | .float, .dword => .ok (⟨index, .floatAsInt⟩, rest)
    | _, _ => .error (.operandUnexpectedEncoding encoding)

/-- `InputOperandType::remove` (intrinsic.rs lines 372–387). -/
def input_operand_remove (encs : List (Nat × ArgEncoding)) (ty_in_ast : ScalarType) :
    Except AbiErr (InputOperandType × List (Nat × ArgEncoding)) :=
  match encs with
  | [] => .error .notEnoughArgs
  | (index, encoding) :: rest =>
    match ty_in_ast, encoding with
    | .int, .dword => .ok (⟨index⟩, rest)
    | .float, .float => .ok (⟨index⟩, rest)
    | _, _ => .error (.operandUnexpectedEncoding encoding)

/-- `ImmediateInt::remove` (intrinsic.rs lines 389–394). -/
def immediate_int_remove (encs : List (Nat × ArgEncoding)) :
    Except AbiErr (ImmediateInt × List (Nat × ArgEncoding)) :=
  (input_operand_remove encs .int).map (fun p => (⟨p.1.index⟩, p.2))

/-- `IntrinsicInstrAbiPropsKind` (intrinsic.rs lines 257–293). -/
inductive IntrinsicAbiPropsKind
  | jmp (padding : UnrepresentablePadding) (jump : JumpArgOrder)
  | interruptLabel (padding : UnrepresentablePadding) (label : ImmediateInt)
  | assignOp (dest : OutOperandType) (rhs : InputOperandType)
  | binop (dest : OutOperandType) (args : InputOperandType × InputOperandType)
  | unop (dest : OutOperandType) (arg : InputOperandType)
  | countJmp (arg : OutOperandType) (jump : JumpArgOrder)
  | condJmp (args : InputOperandType × InputOperandType) (jump : JumpArgOrder)
  | condJmp2A (args : InputOperandType × InputOperandType)
  | condJmp2B (jump : JumpArgOrder)
  deriving DecidableEq, Repr

structure IntrinsicInstrAbiProps where
  num_instr_args : Nat
  kind : IntrinsicAbiPropsKind
  deriving DecidableEq, Repr

/-- `IntrinsicInstrAbiProps::from_abi` (intrinsic.rs lines 397–463). -/
def from_abi (intrinsic : IKind) (abi : List ArgEncoding) :
    Except AbiErr IntrinsicInstrAbiProps := do
  let encodings := abi.enum
  let num_instr_args := encodings.length
  let (kind, rest) ←
    (match intrinsic with
     | .jmp => do
        let (padding, encs) := detect_and_remove_padding encodings
        let (jump, encs) ← find_and_remove_jump encs
        .ok (IntrinsicAbiPropsKind.jmp padding jump, encs)
     | .interruptLabel => do
        let (padding, encs) := detect_and_remove_padding encodings
        let (label, encs) ← immediate_int_remove encs
        .ok (IntrinsicAbiPropsKind.interruptLabel padding label, encs)
     | .assignOp _op ty => do
        let (dest, encs) ← out_operand_remove encodings ty
        let (rhs, encs) ← input_operand_remove encs ty
        .ok (IntrinsicAbiPropsKind.assignOp dest rhs, encs)
     | .binop op arg_ty => do
        let out_ty := binop_result_ty op arg_ty
        let (dest, encs) ← out_operand_remove encodings out_ty
        let (a, encs) ← input_operand_remove encs arg_ty
        let (b, encs) ← input_operand_remove encs arg_ty
        .ok (IntrinsicAbiPropsKind.binop dest (a, b), encs)
     | .unop _op ty => do
        let (dest, encs) ← out_operand_remove encodings ty
        let (arg, encs) ← input_operand_remove encs ty
        .ok (IntrinsicAbiPropsKind.unop dest arg, encs)
     | .countJmp => do
        let (jump, encs) ← find_and_remove_jump encodings
        let (arg, encs) ← out_operand_remove encs .int
        .ok (IntrinsicAbiPropsKind.countJmp arg jump, encs)
     | .condJmp _op ty => do
        let (jump, encs) ← find_and_remove_jump encodings
        let (a, encs) ← input_operand_remove encs ty
        let (b, encs) ← input_operand_remove encs ty
        .ok (IntrinsicAbiPropsKind.condJmp (a, b) jump, encs)
     | .condJmp2A ty => do
        let (a, encs) ← input_operand_remove encodings ty
        let (b, encs) ← input_operand_remove encs ty
        .ok (IntrinsicAbiPropsKind.condJmp2A (a, b), encs)
     | .condJmp2B _op => do
        let (jump, encs) ← find_and_remove_jump encodings
        .ok (IntrinsicAbiPropsKind.condJmp2B jump, encs))
  match rest with
  | (index, encoding) :: _ => .error (.leftoverArg encoding index)
  | [] => .ok ⟨num_instr_args, kind⟩

/-! ## EoSD (TH06) ANM scenario data for the end-of-script rule -/

/-- Modelled from the spec and the source's own diagnostic note ("In EoSD
ANM, every script must have a single exit point (opcode 0 or 15), as the
final instruction."): the EoSD ANM format adapter, absent from `src/`. -/
def eosd_anm_fmt : InstrFormat :=
  { intrinsic_opcodes := fun _ => none
    general_use_regs := fun _ => []
    jump_has_time_arg := false
    is_th06_anm_terminating_instr := fun o => o == 0 || o == 15
    instr_disables_scratch_regs := fun _ => false
    encode_label := fun o => some o
    instr_size := fun i => 8 + 4 * i.args.length }

/-- A minimal EoSD ANM instruction table: `delete` is the terminating
opcode 0, `pos` is opcode 2 with one dword argument. -/
def eosd_ts : TypeSystem :=
  { reg_ty := fun _ => none
    func_ins := fun f => if f = "delete" then some 0 else if f = "pos" then some 2 else none
    ins_sig := fun o => if o = 0 then some [] else if o = 2 then some [.dword] else none
    call_ret_ty := fun _ => none }

/-- `delete(); pos(3);` — a statement after the terminating opcode. -/
def eosd_bad_stmts : List Stmt :=
  [ ⟨1, 0, .exprStmt (.call "delete" [])⟩
  , ⟨2, 0, .exprStmt (.call "pos" [.litInt 3])⟩ ]

/-- `pos(3); delete();` — the terminating opcode is the last instruction. -/
def eosd_good_stmts : List Stmt :=
  [ ⟨1, 0, .exprStmt (.call "pos" [.litInt 3])⟩
  , ⟨2, 0, .exprStmt (.call "delete" [])⟩ ]

def eosd_st0 : TmpState := ⟨0, fun _ => none⟩

def eosd_delete_stmt : Stmt := ⟨2, 0, .exprStmt (.call "delete" [])⟩

/-! ## Early STD (TH06–TH09) label encoding
(`StdHooks06` in src/formats/std.rs lines 731–779 and `InstrFormat06` in
src/std.rs lines 744–752) -/

/-- `encode_label`: early STD encodes a jump target as its instruction
*index*, not its byte offset; the source asserts the offset is a multiple
of 20 (`none` models the assertion failure). -/
def std06_encode_label (dest_offset : Nat) : Option Nat :=
  if dest_offset % 20 = 0 then some (dest_offset / 20) else none

/-- `decode_label`. -/
def std06_decode_label (bits : Nat) : Nat := bits * 20

/-- `InstrFormat06::instr_size` (src/std.rs line 744): every early-STD
instruction occupies exactly 20 bytes. -/
def std06_instr_size (_instr : LowerInstr) : Nat := 20

def u16le (n : Nat) : List Nat := [n % 256, n / 256 % 256]

def u32le (n : Nat) : List Nat :=
  [n % 256, n / 256 % 256, n / 65536 % 256, n / 16777216 % 256]

/-- `StdHooks06::write_instr` (src/formats/std.rs lines 766–774): `i32`
time, `u16` opcode, `u16` argsize (always 12), then the 12-byte argument
blob; `none` models the blob-length assertion. -/
def std06_write_instr (time : Int) (opcode : Nat) (args_blob : List Nat) :
    Option (List Nat) :=
  if args_blob.length = 12 then
    some (u32le (toBits32 time) ++ u16le opcode ++ u16le 12 ++ args_blob)
  else none

/-! ## Concrete ANM-10 scenario data

Modelled from the spec: the ANM format adapter (scratch pools, intrinsic
opcode bindings) and the core ANM mapfile (register aliases) are not under
`src/` in this snapshot.  Register ids follow the spec's worked scenarios
and tests/integration/general.rs: `I0`–`I3` are the int registers
10000–10003 (the format's int scratch pool, in order), floats 10004–10007;
the mapfile under test aliases both `FOO` and `BAR` to register 10003. -/

def anm_reg_ty : RegId → Option ScalarType := fun r =>
  if 10000 ≤ r ∧ r ≤ 10003 then some .int
  else if 10004 ≤ r ∧ r ≤ 10007 then some .float
  else none

def anm_ts : TypeSystem :=
  { reg_ty := anm_reg_ty
    func_ins := fun _ => none
    ins_sig := fun _ => none
    call_ret_ty := fun _ => none }

/-- Modelled from the spec: an ANM-10 format adapter.  The exact opcode
numbers assigned to the intrinsics are irrelevant to every claim below. -/
def anm_fmt : InstrFormat :=
  { intrinsic_opcodes := fun k =>
      match k with
      | .assignOp .Assign .int => some 17
      | .binop .Add .int => some 18
      | .binop .Mul .int => some 20
      | _ => none
    general_use_regs := fun ty =>
      match ty with
      | .int => [10000, 10001, 10002, 10003]
      | .float => [10004, 10005, 10006, 10007]
      | .string => []
    jump_has_time_arg := true
    is_th06_anm_terminating_instr := fun _ => false
    instr_disables_scratch_regs := fun _ => false
    encode_label := fun o => some o
    instr_size := fun i => 8 + 4 * i.args.length }

/-- `FOO`, aliased to register 10003. -/
def vFOO : Var := ⟨none, .reg 10003⟩
/-- `BAR`, also aliased to register 10003. -/
def vBAR : Var := ⟨none, .reg 10003⟩
def vI2 : Var := ⟨none, .reg 10002⟩
def vI1 : Var := ⟨none, .reg 10001⟩

/-- The body of the spec's scenario 2:
`FOO = BAR + (I2 * 2);  FOO = I1;`. -/
def scenario_stmts : List Stmt :=
  [ ⟨1, 0, .assignment vFOO .Assign
      (.binop (.var vBAR) .Add (.binop (.var vI2) .Mul (.litInt 2)))⟩
  , ⟨2, 0, .assignment vFOO .Assign (.var vI1)⟩ ]

/-- The complex operand `(I2 * 2)` of the scenario. -/
def c2_b_expr : Expr := .binop (.var vI2) .Mul (.litInt 2)

def c2_tmp_state0 : TmpState := ⟨0, fun _ => none⟩

/-- The concrete result of `define_temporary` on the scenario's complex
operand (used by the witness of the operand-reuse claim). -/
def c2_define_res : LocalId × Expr × List LowerStmt × TmpState :=
  match define_temporary 4 anm_ts anm_fmt 1 0 c2_b_expr .int .int c2_tmp_state0 with
  | .ok r => r
  | .error _ => (0, .litInt 0, [], c2_tmp_state0)

/-- The constant-folded value of `0xFFABCD01 << 4` (spec scenario 1). -/
def c1_folded : Int :=
  (const_eval_int .ShiftLeft (toSigned32 0xFFABCD01) 4).getD 0

/-- Local `x` of `int x = SHL;` is local id 0 of int type. -/
def c1_local_ty : LocalId → Option ScalarType :=
  fun l => if l = 0 then some .int else none

/-- `int x = SHL;` after const propagation has substituted the folded
literal for the const `SHL`. -/
def c1_stmts : List Stmt :=
  [⟨0, 0, .declaration [(⟨none, .local 0⟩, some (.litInt c1_folded))]⟩]

/-! ## Concrete scenarios for the scratch-register claim -/

/-- Local 0 of `int` type, for the scratch-allocation scenarios. -/
def c3_local_ty : LocalId → Option ScalarType :=
  fun l => if l = 0 then some ScalarType.int else none

/-- A sub that directly references `REG[10000]` and then needs one scratch
register: the allocator must skip 10000 and serve 10001. -/
def c3_code_ok : List LowerStmt :=
  [ .instr ⟨0, 99, [.raw (SimpleArg.from_reg 10000 .int)]⟩
  , .regAlloc 0 7
  , .instr ⟨0, 98, [.local 0 .int]⟩
  , .regFree 0 ]

/-- The allocator's output on `c3_code_ok`: the temporary reads register
10001, not the directly-used 10000. -/
def c3_out : List LowerStmt :=
  [ .instr ⟨0, 99, [.raw (SimpleArg.from_reg 10000 .int)]⟩
  , .regAlloc 0 7
  , .instr ⟨0, 98, [.raw (SimpleArg.from_reg 10001 .int)]⟩
  , .regFree 0 ]

/-- A sub that directly references every register of the int pool and then
asks for a scratch register: the pool is exhausted. -/
def c3_code_bad : List LowerStmt :=
  [ .instr ⟨0, 99,
      [ .raw (SimpleArg.from_reg 10000 .int)
      , .raw (SimpleArg.from_reg 10001 .int)
      , .raw (SimpleArg.from_reg 10002 .int)
      , .raw (SimpleArg.from_reg 10003 .int) ]⟩
  , .regAlloc 0 7 ]

/-! ## Name resolution (`RibStacks::resolve`, src/resolve/mod.rs lines
575–768) -/

/-- `LanguageKey` (context/defs): which script language a name belongs to.
The constructor list is abbreviated to the languages the claims mention. -/
inductive LanguageKey
  | anm
  | ecl
  | std
  | msg
  deriving DecidableEq, Repr

inductive Namespace
  | vars
  | funcs
  deriving DecidableEq, Repr

/-- `RibKind` (resolve/mod.rs lines 592–630). -/
inductive RibKind
  | locals
  | params
  | localBarrier (of_what : String)
  | items
  | mapfile (language : LanguageKey)
  | enumConsts
  | builtinConsts
  | dummyRoot
  deriving DecidableEq, Repr

/-- `RibKind::local_barrier_cause` (lines 672–677). -/
def RibKind.local_barrier_cause : RibKind → Option String
  | .localBarrier of_what => some of_what
  | _ => none

/-- `RibKind::holds_locals` (lines 680–686). -/
def RibKind.holds_locals : RibKind → Bool
  | .locals => true
  | .params => true
  | _ => false

/-- `RibEntry`: the `DefId` and the span of the defining identifier. -/
structure RibEntry where
  def_id : Nat
  def_ident_span : Span
  deriving DecidableEq, Repr

/-- `Rib` (lines 575–584); the `HashMap` of definitions becomes an
association list. -/
structure Rib where
  ns : Namespace
  kind : RibKind
  defs : List (Ident × RibEntry)
  deriving DecidableEq, Repr

/-- `Rib::get` (lines 637–639). -/
def Rib.get (rib : Rib) (ident : Ident) : Option RibEntry :=
  (rib.defs.find? (fun p => p.1 = ident)).map Prod.snd

/-- `Rib::noun` (lines 652–666); the source panics on barrier/root ribs,
modelled as `none`. -/
def Rib.noun (rib : Rib) : Option String :=
  match rib.kind, rib.ns with
  | .locals, _ => some "local"
  | .params, _ => some "parameter"
  | .items, .vars => some "const"
  | .items, .funcs => some "function"
  | .mapfile _, .vars => some "register alias"
  | .mapfile _, .funcs => some "instruction alias"
  | .enumConsts, _ => some "enum const"
  | .builtinConsts, _ => some "builtin const"
  | .localBarrier _, _ => none
  | .dummyRoot, _ => none

/-- The outcomes of `RibStacks::resolve` other than success.  The
unknown-identifier diagnostic carries the optional note's language (the
language that does define the identifier, when the only matches were in
wrong-language mapfile ribs). -/
inductive ResolveErr
  | cannotUseLocalOutside (local_kind : String) (item_kind : String)
      (cur_span : Span) (local_span : Span)
  | unknownIdent (ident : Ident) (cur_span : Span)
      (note_language : Option LanguageKey)
  deriving DecidableEq, Repr

/-- The loop of `RibStacks::resolve` (lines 721–768): the rib list is
already innermost-first (`.iter().rev()` applied by the wrapper), and the
two mutable locals `crossed_local_border` / `language_with_ident` are
explicit accumulators. -/
def resolve_go (ns : Namespace) (cur_span : Span)
    (alias_language : Option LanguageKey) (cur_ident : Ident) :
    List Rib → Option String → Option LanguageKey →
    Except ResolveErr Nat
  | [], _, language_with_ident =>
      .error (.unknownIdent cur_ident cur_span language_with_ident)
  | rib :: rest, crossed_local_border, language_with_ident =>
      -- `crossed_local_border.get_or_insert(cause)`
      let crossed_local_border :=
        match rib.kind.local_barrier_cause with
        | some cause => some (crossed_local_border.getD cause)
        | none => crossed_local_border
      match rib.get cur_ident with
      | none =>
          resolve_go ns cur_span alias_language cur_ident rest
            crossed_local_border language_with_ident
      | some d =>
          if rib.kind.holds_locals && crossed_local_border.isSome then
            .error (.cannotUseLocalOutside ((rib.noun).getD "")
              (crossed_local_border.getD "") cur_span d.def_ident_span)
          else
            match rib.kind with
            | .mapfile mapfile_language =>
                if alias_language = some mapfile_language then
                  .ok d.def_id
                else
                  resolve_go ns cur_span alias_language cur_ident rest
                    crossed_local_border (some mapfile_language)
            | _ => .ok d.def_id

/-- `RibStacks::resolve`: walk the namespace's rib stack (outermost-first
in storage) from innermost to outermost. -/
def RibStacks_resolve (ns : Namespace) (cur_span : Span)
    (alias_language : Option LanguageKey) (cur_ident : Ident)
    (ribs : List Rib) : Except ResolveErr Nat :=
  resolve_go ns cur_span alias_language cur_ident ribs.reverse none none

/-- An outer function body whose local `x` (DefId 7) is defined at span 1. -/
def c8_locals_outer : Rib := ⟨.vars, .locals, [("x", ⟨7, 1⟩)]⟩

/-- The rib stack at a use of `x` inside a nested function: outermost
first, as stored by `RibStacks`. -/
def c8_stack1 : List Rib :=
  [ ⟨.vars, .dummyRoot, []⟩
  , c8_locals_outer
  , ⟨.vars, .localBarrier "function", []⟩
  , ⟨.vars, .locals, []⟩ ]

/-- An `anm` mapfile rib defining the register alias `FOO` (DefId 42,
span 2). -/
def c8_mapfile_anm : Rib := ⟨.vars, .mapfile .anm, [("FOO", ⟨42, 2⟩)]⟩

def c8_stack2 : List Rib := [⟨.vars, .dummyRoot, []⟩, c8_mapfile_anm]

/-! ## Theorems: 32-bit arithmetic facts -/

theorem wrap32_inRange (x : Int) : inRange32 (wrap32 x) := by
  unfold wrap32 inRange32; omega

theorem wrap32_eq_self {x : Int} (h : inRange32 x) : wrap32 x = x := by
  unfold wrap32; unfold inRange32 at h; omega

theorem toBits32_lt (x : Int) : toBits32 x < 2^32 := by
  unfold toBits32; omega

theorem toSigned32_toBits32 {x : Int} (h : inRange32 x) : toSigned32 (toBits32 x) = x := by
  unfold toSigned32 toBits32; unfold inRange32 at h
  split <;> omega

theorem toBits32_toSigned32 {n : Nat} (h : n < 2^32) : toBits32 (toSigned32 n) = n := by
  unfold toSigned32 toBits32
  split <;> omega

theorem toSigned32_inRange {n : Nat} (h : n < 2^32) : inRange32 (toSigned32 n) := by
  unfold toSigned32 inRange32
  split <;> omega

/-- An arithmetic shift right performed on the 32-bit two's-complement bit
pattern (divide the bits, fill the vacated high bits with the sign bit)
computes floor division by the corresponding power of two. -/
theorem sar_bits_eq_ediv (a : Int) (s : Nat) (h : inRange32 a) (hs : s < 32) :
    toSigned32 (toBits32 a / 2^s + (toBits32 a / 2^31) * (2^32 - 2^(32-s)))
      = a / (2:Int)^s := by
  obtain ⟨h1, h2⟩ := h
  have hm1 : (1:Nat) ≤ 2^s := Nat.one_le_two_pow
  have hcast : ((2^s : Nat) : Int) = (2:Int)^s := by push_cast; ring
  rcases le_or_lt 0 a with ha | ha
  · have hb : toBits32 a = a.toNat := by unfold toBits32; omega
    have hsmall : a.toNat < 2^31 := by omega
    have hsign : a.toNat / 2^31 = 0 := Nat.div_eq_of_lt hsmall
    rw [hb, hsign]
    simp only [Nat.zero_mul, Nat.add_zero]
    have hq : a.toNat / 2^s < 2^31 := lt_of_le_of_lt (Nat.div_le_self _ _) hsmall
    unfold toSigned32
    rw [if_pos hq, Int.ofNat_ediv, hcast]
    congr 1
    omega
  · -- negative case: the sign bit is set
    have hb : toBits32 a = (a + 2^32).toNat := by unfold toBits32; omega
    have hblo : 2^31 ≤ toBits32 a := by omega
    have hbhi : toBits32 a < 2^32 := by omega
    have hsign : toBits32 a / 2^31 = 1 := by
      rw [Nat.div_eq_sub_div (by norm_num) hblo, Nat.div_eq_of_lt (by omega)]
    rw [hsign]
    -- name the relevant powers and quotients as plain variables for omega
    obtain ⟨bits, hbits⟩ : ∃ n, toBits32 a = n := ⟨_, rfl⟩
    obtain ⟨C, hC⟩ : ∃ n, (2:Nat)^s = n := ⟨_, rfl⟩
    obtain ⟨K, hK⟩ : ∃ n, (2:Nat)^(32-s) = n := ⟨_, rfl⟩
    obtain ⟨P, hP⟩ : ∃ n, (2:Nat)^(31-s) = n := ⟨_, rfl⟩
    obtain ⟨q, hq⟩ : ∃ n, bits / C = n := ⟨_, rfl⟩
    rw [hbits] at hblo hbhi hb
    rw [hbits, hC, hK, hq]
    have hCK : C * K = 2^32 := by rw [← hC, ← hK, ← pow_add]; congr 1; omega
    have hqK : q < K := by
      rw [← hq, Nat.div_lt_iff_lt_mul (by omega)]
      calc bits < 2^32 := hbhi
        _ = K * C := by rw [Nat.mul_comm K C]; exact hCK.symm
    have hvlo : 2^31 ≤ q + 1 * (2^32 - K) := by
      rcases Nat.eq_zero_or_pos s with h0 | hpos
      · have hK32 : K = 2^32 := by rw [← hK, h0]
        have hC1 : C = 1 := by rw [← hC, h0, pow_zero]
        have hq1 : q = bits := by rw [← hq, hC1, Nat.div_one]
        omega
      · have hql : P ≤ q := by
          rw [← hq, ← hP]
          have hstep : 2^31 / C ≤ bits / C := Nat.div_le_div_right hblo
          have heq : (2:Nat)^31 / C = 2^(31-s) := by
            rw [← hC, Nat.pow_div (by omega) (by norm_num)]
          omega
        have hKP : K = 2 * P := by
          rw [← hK, ← hP, ← pow_succ']
          congr 1
          omega
        have hPle : P ≤ 2^31 := by
          rw [← hP]
          exact Nat.pow_le_pow_right (by norm_num) (by omega)
        omega
    have hKle : K ≤ 2^32 := by
      rw [← hK]; exact Nat.pow_le_pow_right (by norm_num) (by omega)
    have hvhi : q + 1 * (2^32 - K) < 2^32 := by omega
    unfold toSigned32
    rw [if_neg (by omega)]
    have hCint : ((C:Nat) : Int) = (2:Int)^s := by rw [← hC]; exact hcast
    have hKcast : ((K:Nat) : Int) * ((2:Int)^s) = 2^32 := by
      rw [← hCint]
      have hc := congrArg (fun n : Nat => (n : Int)) hCK
      push_cast at hc
      linarith
    have haval : a = (bits : Int) - 2^32 := by omega
    have hstep : a / ((2:Int)^s) = (bits : Int) / (2:Int)^s - K := by
      rw [haval, show (bits : Int) - 2^32 = (bits : Int) + (-(K:Int)) * (2:Int)^s by
        rw [neg_mul, hKcast]; ring]
      rw [Int.add_mul_ediv_right _ _ (by positivity)]
      ring
    rw [hstep]
    have hbq : (bits : Int) / (2:Int)^s = (q : Int) := by
      rw [← hCint, ← Int.ofNat_ediv, hq]
    omega

theorem shiftAmt_lt (b : Int) : shiftAmt b < 32 := by
  unfold shiftAmt; omega

/-- `<<` wraps: the bit pattern of the folded result is the shifted bit
pattern reduced modulo `2^32`. -/
theorem shl_bits (a b : Int) :
    toBits32 (constEvalIntShift .ShiftLeft a b)
      = (toBits32 a * 2^(shiftAmt b)) % 2^32 := by
  unfold constEvalIntShift
  exact toBits32_toSigned32 (Nat.mod_lt _ (by norm_num))

/-- `>>>` is a logical shift: the bit pattern of the folded result is the
bit pattern of the operand divided by `2^s`, with zero fill. -/
theorem ushr_bits (a b : Int) :
    toBits32 (constEvalIntShift .ShiftRightUnsigned a b)
      = toBits32 a / 2^(shiftAmt b) := by
  unfold constEvalIntShift
  exact toBits32_toSigned32
    (lt_of_le_of_lt (Nat.div_le_self _ _) (toBits32_lt a))

/-- `>>` is an arithmetic shift: it computes floor division by `2^s`. -/
theorem sar_eq_fdiv (a b : Int) (h : inRange32 a) :
    constEvalIntShift .ShiftRightSigned a b = Int.fdiv a (2^(shiftAmt b)) := by
  unfold constEvalIntShift
  rw [Int.fdiv_eq_ediv _ (by positivity)]
  exact sar_bits_eq_ediv a (shiftAmt b) h (shiftAmt_lt b)

/-! ## Claim theorems: constant folding -/

/-- **C9.** Constant folding of integer division and remainder is partial:
for every constant integer `a`, folding `a / 0` or `a % 0` panics
(`i32::wrapping_div` / `i32::wrapping_rem` with a zero divisor) rather than
producing a diagnostic (`typeError` is the only diagnostic this code path
can emit), while every nonzero divisor folds normally.  The compile-time
evaluator is therefore not total over constant integer operands. -/
theorem div_rem_const_fold_panics_on_zero :
    (∀ a : Int, binop_const_eval .Div (.int a) (.int 0) = .panicked)
    ∧ (∀ a : Int, binop_const_eval .Rem (.int a) (.int 0) = .panicked)
    ∧ (∀ a b : Int, b ≠ 0 →
        binop_const_eval .Div (.int a) (.int b) = .ok (.int (wrap32 (rustDiv a b)))
        ∧ binop_const_eval .Rem (.int a) (.int b) = .ok (.int (wrap32 (rustRem a b)))) := by
  refine ⟨fun a => ?_, fun a => ?_, fun a b hb => ⟨?_, ?_⟩⟩
  · simp [binop_const_eval, binop_type_ok, ScalarValue.ty, const_eval_int]
  · simp [binop_const_eval, binop_type_ok, ScalarValue.ty, const_eval_int]
  · simp [binop_const_eval, binop_type_ok, ScalarValue.ty, const_eval_int, hb]
  · simp [binop_const_eval, binop_type_ok, ScalarValue.ty, const_eval_int, hb]

/-- Witness for `div_rem_const_fold_panics_on_zero` at `a = 7`, `b = 2`. -/
theorem div_rem_const_fold_panics_on_zero_witness :
    binop_const_eval .Div (.int 7) (.int 2) = .ok (.int (wrap32 (rustDiv 7 2))) := by
  exact (div_rem_const_fold_panics_on_zero.2.2 7 2 (by decide)).1

/-- **C10.** Constant folding of the logical operators on integers returns
operand values rather than a normalised boolean: `a || b` folds to `a` when
`a ≠ 0` and to `b` otherwise; `a && b` folds to `0` when `a = 0` and to `b`
otherwise (so `5 && 3` folds to `3`, not `1`).  On float constants the
logical operators do not fold: the type check rejects them. -/
theorem logical_const_fold_returns_operands :
    (∀ a b : Int, binop_const_eval .LogicOr (.int a) (.int b)
        = .ok (.int (if a = 0 then b else a)))
    ∧ (∀ a b : Int, binop_const_eval .LogicAnd (.int a) (.int b)
        = .ok (.int (if a = 0 then 0 else b)))
    ∧ binop_const_eval .LogicAnd (.int 5) (.int 3) = .ok (.int 3)
    ∧ (∀ x y : Rat, binop_const_eval .LogicOr (.float x) (.float y) = .typeError)
    ∧ (∀ x y : Rat, binop_const_eval .LogicAnd (.float x) (.float y) = .typeError) := by
  refine ⟨fun a b => ?_, fun a b => ?_, ?_, fun x y => ?_, fun x y => ?_⟩ <;>
    simp [binop_const_eval, binop_type_ok, ScalarValue.ty, const_eval_int]

theorem remove_first_where_none {α} {p : α → Bool} :
    ∀ {l : List α}, (∀ x ∈ l, p x = false) → remove_first_where p l = none := by
  intro l
  induction l with
  | nil => intro _; rfl
  | cons x xs ih =>
    intro h
    unfold remove_first_where
    rw [h x (by simp)]
    simp only [Bool.false_eq_true, if_false]
    rw [ih (fun y hy => h y (by simp [hy]))]

theorem remove_first_where_mem {α} {p : α → Bool} :
    ∀ {l : List α} {x : α} {rest : List α} {y : α},
      remove_first_where p l = some (x, rest) → y ∈ rest → y ∈ l := by
  intro l
  induction l with
  | nil => intro x rest y h; simp [remove_first_where] at h
  | cons z zs ih =>
    intro x rest y h hy
    unfold remove_first_where at h
    by_cases hz : p z
    · rw [if_pos hz] at h
      simp only [Option.some.injEq, Prod.mk.injEq] at h
      obtain ⟨h1, h2⟩ := h
      subst h2
      simp [hy]
    · rw [if_neg hz] at h
      cases hr : remove_first_where p zs with
      | none => rw [hr] at h; cases h
      | some pr =>
        rw [hr] at h
        obtain ⟨w, ws⟩ := pr
        simp only [Option.some.injEq, Prod.mk.injEq] at h
        obtain ⟨h1, h2⟩ := h
        subst h1
        subst h2
        rcases List.mem_cons.mp hy with h3 | hy2
        · simp [h3]
        · simp [ih hr hy2]

/-- **C4.** For every jump-style intrinsic (`Jmp`, `CondJmp`, `CountJmp`,
`CondJmp2B`) the ABI matcher accepts exactly the orderings `o`, `o,t` and
`t,o`: no `o` is a "missing jump offset" error; a `t` not adjacent to the
`o` is an error; `o` alone records kind `loc` (the jump time is implicitly
`timeof(destination)`); and any encoding left over after the structural
positions are extracted is an error. -/
theorem jump_abi_matching :
    (∀ l : List (Nat × ArgEncoding), (∀ x ∈ l, x.2 ≠ ArgEncoding.jumpOffset) →
        find_and_remove_jump l = .error .missingJumpOffset)
    ∧ (∀ (l : List (Nat × ArgEncoding)) (oi : Nat) (o : ArgEncoding)
        (rest : List (Nat × ArgEncoding)),
        remove_first_where (fun p => p.2 == ArgEncoding.jumpOffset) l = some ((oi, o), rest) →
        (∀ x ∈ l, x.2 ≠ ArgEncoding.jumpTime) →
        find_and_remove_jump l = .ok (⟨oi, .loc⟩, rest))
    ∧ (∀ (l : List (Nat × ArgEncoding)) (oi ti : Nat) (o t : ArgEncoding)
        (rest1 rest2 : List (Nat × ArgEncoding)),
        remove_first_where (fun p => p.2 == ArgEncoding.jumpOffset) l = some ((oi, o), rest1) →
        remove_first_where (fun p => p.2 == ArgEncoding.jumpTime) rest1 = some ((ti, t), rest2) →
        find_and_remove_jump l =
          (if ti = oi + 1 then .ok (⟨oi, .locTime⟩, rest2)
           else if ti + 1 = oi then .ok (⟨ti, .timeLoc⟩, rest2)
           else .error .nonConsecutiveJumpArgs))
    ∧ from_abi .jmp [.jumpOffset] = .ok ⟨1, .jmp ⟨1, 0⟩ ⟨0, .loc⟩⟩
    ∧ from_abi .jmp [.jumpOffset, .jumpTime] = .ok ⟨2, .jmp ⟨2, 0⟩ ⟨0, .locTime⟩⟩
    ∧ from_abi .jmp [.jumpTime, .jumpOffset] = .ok ⟨2, .jmp ⟨2, 0⟩ ⟨0, .timeLoc⟩⟩
    ∧ from_abi .jmp [.jumpOffset, .dword, .jumpTime] = .error .nonConsecutiveJumpArgs
    ∧ from_abi .jmp [.dword, .jumpOffset] = .error (.leftoverArg .dword 0)
    ∧ from_abi .countJmp [.dword, .jumpTime, .jumpOffset]
        = .ok ⟨3, .countJmp ⟨0, .natural⟩ ⟨1, .timeLoc⟩⟩
    ∧ from_abi .countJmp [.dword, .jumpOffset, .dword] = .error (.leftoverArg .dword 2)
    ∧ from_abi (.condJmp .Lt .int) [.dword, .dword, .jumpOffset, .jumpTime]
        = .ok ⟨4, .condJmp (⟨0⟩, ⟨1⟩) ⟨2, .locTime⟩⟩
    ∧ from_abi (.condJmp2B .Lt) [.jumpOffset, .jumpTime, .dword]
        = .error (.leftoverArg .dword 2)
    ∧ from_abi (.condJmp2B .Lt) [.jumpTime] = .error .missingJumpOffset := by
  refine ⟨?_, ?_, ?_, by rfl, by rfl, by rfl, by rfl, by rfl,
          by rfl, by rfl, by rfl, by rfl, by rfl⟩
  · intro l h
    unfold find_and_remove_jump
    rw [remove_first_where_none (fun x hx => by simp [h x hx])]
  · intro l oi o rest ho ht
    unfold find_and_remove_jump
    rw [ho]
    dsimp only
    rw [remove_first_where_none
      (fun x hx => by simp [ht x (remove_first_where_mem ho hx)])]
  · intro l oi ti o t rest1 rest2 ho ht
    unfold find_and_remove_jump
    rw [ho]
    dsimp only
    rw [ht]

/-- Witness for `jump_abi_matching`: the `o`-alone conjunct at a concrete
encoding list. -/
theorem jump_abi_matching_witness :
    find_and_remove_jump [(0, ArgEncoding.jumpOffset), (1, ArgEncoding.dword)]
      = .ok (⟨0, .loc⟩, [(1, ArgEncoding.dword)]) :=
  jump_abi_matching.2.1 [(0, .jumpOffset), (1, .dword)] 0 .jumpOffset
    [(1, .dword)] (by rfl) (by decide)

/-- **C5.** The output operand position accepts `S` for an int output, `f`
for a float output, and `S` for a float output (the EoSD-ECL FloatAsInt
case); every other combination is rejected.  Input operand positions accept
only `S` for int and `f` for float — in particular a float input encoded as
`S` is rejected. -/
theorem operand_encoding_rules :
    (∀ (i : Nat) (rest : List (Nat × ArgEncoding)),
        out_operand_remove ((i, .dword) :: rest) .int = .ok (⟨i, .natural⟩, rest))
    ∧ (∀ (i : Nat) (rest : List (Nat × ArgEncoding)),
        out_operand_remove ((i, .float) :: rest) .float = .ok (⟨i, .natural⟩, rest))
    ∧ (∀ (i : Nat) (rest : List (Nat × ArgEncoding)),
        out_operand_remove ((i, .dword) :: rest) .float = .ok (⟨i, .floatAsInt⟩, rest))
    ∧ (∀ (i : Nat) (rest : List (Nat × ArgEncoding)) (enc : ArgEncoding),
        enc ≠ .dword →
        out_operand_remove ((i, enc) :: rest) .int = .error (.operandUnexpectedEncoding enc))
    ∧ (∀ (i : Nat) (rest : List (Nat × ArgEncoding)) (enc : ArgEncoding),
        enc ≠ .dword → enc ≠ .float →
        out_operand_remove ((i, enc) :: rest) .float = .error (.operandUnexpectedEncoding enc))
    ∧ (∀ (i : Nat) (rest : List (Nat × ArgEncoding)) (enc : ArgEncoding),
        out_operand_remove ((i, enc) :: rest) .string = .error (.operandUnexpectedEncoding enc))
    ∧ (∀ (i : Nat) (rest : List (Nat × ArgEncoding)),
        input_operand_remove ((i, .dword) :: rest) .int = .ok (⟨i⟩, rest))
    ∧ (∀ (i : Nat) (rest : List (Nat × ArgEncoding)),
        input_operand_remove ((i, .float) :: rest) .float = .ok (⟨i⟩, rest))
    ∧ (∀ (i : Nat) (rest : List (Nat × ArgEncoding)),
        input_operand_remove ((i, .dword) :: rest) .float
          = .error (.operandUnexpectedEncoding .dword))
    ∧ (∀ (i : Nat) (rest : List (Nat × ArgEncoding)) (enc : ArgEncoding),
        enc ≠ .dword →
        input_operand_remove ((i, enc) :: rest) .int = .error (.operandUnexpectedEncoding enc))
    ∧ (∀ (i : Nat) (rest : List (Nat × ArgEncoding)) (enc : ArgEncoding),
        enc ≠ .float →
        input_operand_remove ((i, enc) :: rest) .float = .error (.operandUnexpectedEncoding enc))
    ∧ from_abi (.binop .Add .float) [.dword, .float, .float]
        = .ok ⟨3, .binop ⟨0, .floatAsInt⟩ (⟨1⟩, ⟨2⟩)⟩
    ∧ from_abi (.binop .Add .float) [.float, .dword, .float]
        = .error (.operandUnexpectedEncoding .dword) := by
  refine ⟨fun i rest => rfl, fun i rest => rfl, fun i rest => rfl,
          fun i rest enc h => ?_, fun i rest enc h1 h2 => ?_, fun i rest enc => ?_,
          fun i rest => rfl, fun i rest => rfl, fun i rest => rfl,
          fun i rest enc h => ?_, fun i rest enc h => ?_,
          by rfl, by rfl⟩
  · cases enc <;> first | rfl | exact absurd rfl h
  · cases enc <;> first | rfl | exact absurd rfl h1 | exact absurd rfl h2
  · cases enc <;> rfl
  · cases enc <;> first | rfl | exact absurd rfl h
  · cases enc <;> first | rfl | exact absurd rfl h

/-- Witness for `operand_encoding_rules`: an int output encoded as `f` is
rejected. -/
theorem operand_encoding_rules_witness :
    out_operand_remove [(0, ArgEncoding.float)] .int
      = .error (.operandUnexpectedEncoding .float) :=
  operand_encoding_rules.2.2.2.1 0 [] .float (by decide)

/-- **C6.** In early STD every instruction occupies exactly 20 bytes (both
as reported by `instr_size` and as written by `write_instr`), the byte
offset after `k` instructions is `20 * k`, and a jump target is encoded as
its instruction index: `encode_label o = o / 20` for every offset that is a
multiple of 20 (in particular `encode_label (20 * n) = n`), `decode_label`
inverts it, and an offset that is not a multiple of 20 is rejected. -/
theorem std06_label_encoding :
    (∀ i : LowerInstr, std06_instr_size i = 20)
    ∧ (∀ (time : Int) (opcode : Nat) (blob bytes : List Nat),
        std06_write_instr time opcode blob = some bytes → bytes.length = 20)
    ∧ (∀ (is : List LowerInstr) (k : Nat),
        ((is.take k).foldl (fun o i => o + std06_instr_size i) 0) = 20 * min k is.length)
    ∧ (∀ o : Nat, o % 20 = 0 →
        std06_encode_label o = some (o / 20)
        ∧ std06_decode_label (o / 20) = o)
    ∧ (∀ n : Nat, std06_encode_label (20 * n) = some n)
    ∧ (∀ o : Nat, o % 20 ≠ 0 → std06_encode_label o = none) := by
  refine ⟨fun i => rfl, ?_, ?_, ?_, ?_, ?_⟩
  · intro time opcode blob bytes h
    unfold std06_write_instr at h
    split at h
    · rename_i hlen
      simp only [Option.some.injEq] at h
      subst h
      simp [u32le, u16le, hlen]
    · cases h
  · intro is k
    have step : ∀ (l : List LowerInstr) (a : Nat),
        l.foldl (fun o i => o + std06_instr_size i) a = a + 20 * l.length := by
      intro l
      induction l with
      | nil => simp
      | cons x xs ihl =>
        intro a
        simp only [List.foldl_cons, List.length_cons]
        rw [ihl]
        simp only [std06_instr_size]
        ring
    rw [step]
    simp [List.length_take]
  · intro o h
    unfold std06_encode_label std06_decode_label
    rw [if_pos h]
    exact ⟨rfl, by omega⟩
  · intro n
    unfold std06_encode_label
    rw [if_pos (by omega)]
    congr 1
    omega
  · intro o h
    unfold std06_encode_label
    rw [if_neg h]

/-- Witness for `std06_label_encoding`: a 40-byte offset (the third
instruction) encodes as index 2 and decodes back, and offset 30 is
rejected. -/
theorem std06_label_encoding_witness :
    (std06_encode_label 40 = some 2 ∧ std06_decode_label 2 = 40)
    ∧ std06_encode_label 30 = none :=
  ⟨std06_label_encoding.2.2.2.1 40 (by decide),
   std06_label_encoding.2.2.2.2.2 30 (by decide)⟩

/-- **C7.** Once the EoSD (TH06) ANM terminating opcode has been emitted
(any call whose opcode the format marks terminating — the note in the
source names opcodes 0 and 15), every following statement other than the
virtual `NoInstruction` is rejected with a "statement after end of script"
error pointing at both the forbidden statement and the terminating call,
and is not lowered (the output stream and state are unchanged); the
terminating call records its span as the end-of-script marker; concretely,
`delete(); pos(3);` is rejected while `pos(3); delete();` compiles with the
terminator as the last instruction. -/
theorem statement_after_end_rule :
    (∀ (fuel : Nat) (ts : TypeSystem) (fmt : InstrFormat) (stmts : List Stmt)
        (end_span : Span) (st : TmpState) (out : List LowerStmt) (errs : List LowerErr),
        lower_sub_go fuel ts fmt stmts (some end_span) st out errs =
          (out, st,
           errs ++ (stmts.filter (fun s => !s.body.is_no_instruction)).map
             (fun s => .statementAfterEnd s.span end_span)))
    ∧ (∀ (fuel : Nat) (ts : TypeSystem) (fmt : InstrFormat) (stmt : Stmt)
        (func : Ident) (args : List Expr) (opcode : Nat)
        (st st2 : TmpState) (out : List LowerStmt),
        stmt.body = .exprStmt (.call func args) →
        ts.func_ins func = some opcode →
        fmt.is_th06_anm_terminating_instr opcode = true →
        lower_instruction fuel ts fmt stmt.span stmt.time opcode func args st = .ok (out, st2) →
        lower_stmt_body fuel ts fmt stmt st = .ok (out, st2, some stmt.span))
    ∧ (lower_sub_ast 10 eosd_ts eosd_anm_fmt eosd_bad_stmts eosd_st0).1
        = [.instr ⟨0, 0, []⟩]
    ∧ (lower_sub_ast 10 eosd_ts eosd_anm_fmt eosd_bad_stmts eosd_st0).2.2
        = [.statementAfterEnd 2 1]
    ∧ (lower_sub_ast 10 eosd_ts eosd_anm_fmt eosd_good_stmts eosd_st0).1
        = [.instr ⟨0, 2, [.raw ⟨.int 3, false⟩]⟩, .instr ⟨0, 0, []⟩]
    ∧ (lower_sub_ast 10 eosd_ts eosd_anm_fmt eosd_good_stmts eosd_st0).2.2
        = [] := by
  refine ⟨?_, ?_, by decide, by decide, by decide, by decide⟩
  · intro fuel ts fmt stmts end_span
    induction stmts with
    | nil => intro st out errs; simp [lower_sub_go]
    | cons s rest ih =>
      intro st out errs
      unfold lower_sub_go
      by_cases h : s.body.is_no_instruction
      · rw [if_pos h]
        rw [ih]
        simp [List.filter_cons, h]
      · rw [if_neg h]
        rw [ih]
        simp only [List.filter_cons]
        simp [h]
  · intro fuel ts fmt stmt func args opcode st st2 out h1 h2 h3 h4
    obtain ⟨sp, tm, body⟩ := stmt
    simp only at h1
    subst h1
    unfold lower_stmt_body
    simp only
    rw [h2]
    simp only [bind, Except.bind]
    rw [h4] at *
    simp [h3]

/-- Witness for `statement_after_end_rule`: the terminating-call conjunct
applied to a concrete `delete()` statement. -/
theorem statement_after_end_rule_witness :
    lower_stmt_body 5 eosd_ts eosd_anm_fmt eosd_delete_stmt eosd_st0
      = .ok ([.instr ⟨0, 0, []⟩], eosd_st0, some 2) :=
  statement_after_end_rule.2.1 5 eosd_ts eosd_anm_fmt eosd_delete_stmt
    "delete" [] 0 eosd_st0 eosd_st0 [.instr ⟨0, 0, []⟩] rfl rfl rfl rfl

/-- Registers handed out by the allocator sweep avoid the `used` set
whenever every pool register and every live temporary's register avoids it:
the inductive invariant behind the scratch-register claim. -/
theorem assign_registers_go_allocs (fmt : InstrFormat)
    (local_ty : LocalId → Option ScalarType) (used : List RegId) :
    ∀ (code : List LowerStmt) (pools : ScalarType → List RegId)
      (local_regs : List (LocalId × RegId × ScalarType × Span))
      (us : Option Span) (ha : Bool)
      (code' : List LowerStmt) (allocs : List RegId),
      (∀ ty, ∀ r ∈ pools ty, r ∉ used) →
      (∀ e ∈ local_regs, e.2.1 ∉ used) →
      assign_registers_go fmt local_ty code pools local_regs us ha = .ok (code', allocs) →
      ∀ r ∈ allocs, r ∉ used := by
  intro code
  induction code with
  | nil =>
    intro pools local_regs us ha code' allocs hp hl h r hr
    unfold assign_registers_go at h
    split at h
    · split at h
      · cases h
      · simp only [Except.ok.injEq, Prod.mk.injEq] at h
        obtain ⟨_, h2⟩ := h
        subst h2
        cases hr
    · simp only [Except.ok.injEq, Prod.mk.injEq] at h
      obtain ⟨_, h2⟩ := h
      subst h2
      cases hr
  | cons s rest ih =>
    intro pools local_regs us ha code' allocs hp hl h r hr
    cases s with
    | regAlloc local_id cause =>
      unfold assign_registers_go at h
      split at h
      · cases h
      · rename_i ty hty
        split at h
        · cases h
        · rename_i reg pool_rest hpool
          split at h
          · cases h
          · rename_i hfind
            simp only [bind, Except.bind] at h
            split at h
            · cases h
            · rename_i p hres
              obtain ⟨code2, allocs2⟩ := p
              simp only [Except.ok.injEq, Prod.mk.injEq] at h
              obtain ⟨_, h2⟩ := h
              subst h2
              have hreg : reg ∉ used :=
                hp ty reg (by rw [hpool]; exact List.mem_cons_self reg pool_rest)
              rcases List.mem_cons.mp hr with h3 | h3
              · subst h3; exact hreg
              · refine ih _ _ _ _ _ _ ?_ ?_ hres r h3
                · intro t2 x hx
                  by_cases hteq : t2 = ty
                  · rw [if_pos hteq] at hx
                    exact hp ty x (by rw [hpool]; exact List.mem_cons_of_mem _ hx)
                  · rw [if_neg hteq] at hx
                    exact hp t2 x hx
                · intro e he
                  rcases List.mem_append.mp he with h4 | h4
                  · exact hl e h4
                  · simp only [List.mem_singleton] at h4
                    subst h4
                    exact hreg
    | regFree local_id =>
      unfold assign_registers_go at h
      split at h
      · cases h
      · rename_i ity hity
        split at h
        · cases h
        · rename_i a reg b c hfind
          simp only [bind, Except.bind] at h
          split at h
          · cases h
          · rename_i p hres
            obtain ⟨code2, allocs2⟩ := p
            simp only [Except.ok.injEq, Prod.mk.injEq] at h
            obtain ⟨_, h2⟩ := h
            subst h2
            have hreg0 : reg ∉ used := hl _ (List.mem_of_find?_eq_some hfind)
            refine ih _ _ _ _ _ _ ?_ ?_ hres r hr
            · intro t2 x hx
              by_cases hteq : t2 = ity
              · rw [if_pos hteq] at hx
                rcases List.mem_cons.mp hx with h4 | h4
                · subst h4; exact hreg0
                · exact hp t2 x h4
              · rw [if_neg hteq] at hx
                exact hp t2 x hx
            · intro e he
              exact hl e (List.mem_of_mem_filter he)
    | instr i =>
      unfold assign_registers_go at h
      dsimp only at h
      split at h
      · cases h
      · rename_i args hargs
        simp only [bind, Except.bind] at h
        split at h
        · cases h
        · rename_i p hres
          obtain ⟨code2, allocs2⟩ := p
          simp only [Except.ok.injEq, Prod.mk.injEq] at h
          obtain ⟨_, h2⟩ := h
          subst h2
          exact ih _ _ _ _ _ _ hp hl hres r hr
    | label tt nn =>
      unfold assign_registers_go at h
      simp only [bind, Except.bind] at h
      split at h
      · cases h
      · rename_i p hres
        obtain ⟨code2, allocs2⟩ := p
        simp only [Except.ok.injEq, Prod.mk.injEq] at h
        obtain ⟨_, h2⟩ := h
        subst h2
        exact ih _ _ _ _ _ _ hp hl hres r hr

/-- **C3.**  Scratch-register assignment never allocates a register that is
directly referenced in the sub: (1) every register served by a `RegAlloc`
avoids `get_used_regs code`; (2) the pre-pass removes the used registers from
the general-use pools before the sweep starts; (3) `RegAlloc` pops the head
of the free pool of the local's type; (4) `RegFree` pushes the register back
on that pool; (5) an empty pool at a `RegAlloc` is the 'script too complex'
diagnostic listing the live temporaries of that type; (6)/(7) concretely, on
a sub that uses `REG[10000]` directly the temporary gets 10001, and a sub
using the whole pool directly exhausts it. -/
theorem scratch_register_no_clobber :
    (∀ (fmt : InstrFormat) (local_ty : LocalId → Option ScalarType)
       (code code' : List LowerStmt) (allocs : List RegId),
       assign_registers fmt local_ty code = .ok (code', allocs) →
       ∀ r ∈ allocs, r ∉ get_used_regs code)
    ∧ (∀ (fmt : InstrFormat) (local_ty : LocalId → Option ScalarType)
         (code : List LowerStmt),
       assign_registers fmt local_ty code =
         assign_registers_go fmt local_ty code
           (fun ty => (fmt.general_use_regs ty).filter
             (fun r => ¬ (get_used_regs code).contains r)) [] none false)
    ∧ (∀ (fmt : InstrFormat) (local_ty : LocalId → Option ScalarType)
         (lid : LocalId) (cause : Span) (rest : List LowerStmt)
         (pools : ScalarType → List RegId)
         (local_regs : List (LocalId × RegId × ScalarType × Span))
         (us : Option Span) (ha : Bool) (ty : ScalarType)
         (reg : RegId) (pool_rest : List RegId),
       local_ty lid = some ty → pools ty = reg :: pool_rest →
       (local_regs.find? (fun e => e.1 = lid)).isSome = false →
       assign_registers_go fmt local_ty (.regAlloc lid cause :: rest)
           pools local_regs us ha =
         Except.map (fun p => (.regAlloc lid cause :: p.1, reg :: p.2))
           (assign_registers_go fmt local_ty rest
             (fun t => if t = ty then pool_rest else pools t)
             (local_regs ++ [(lid, reg, ty, cause)])
             (some (us.getD cause)) ha))
    ∧ (∀ (fmt : InstrFormat) (local_ty : LocalId → Option ScalarType)
         (lid : LocalId) (rest : List LowerStmt)
         (pools : ScalarType → List RegId)
         (local_regs : List (LocalId × RegId × ScalarType × Span))
         (us : Option Span) (ha : Bool) (ity : ScalarType)
         (a : LocalId) (reg : RegId) (b : ScalarType) (c : Span),
       local_ty lid = some ity →
       local_regs.find? (fun e => e.1 = lid) = some (a, reg, b, c) →
       assign_registers_go fmt local_ty (.regFree lid :: rest)
           pools local_regs us ha =
         Except.map (fun p => (.regFree lid :: p.1, p.2))
           (assign_registers_go fmt local_ty rest
             (fun t => if t = ity then reg :: pools t else pools t)
             (local_regs.filter (fun e => ¬ e.1 = lid)) us ha))
    ∧ (∀ (fmt : InstrFormat) (local_ty : LocalId → Option ScalarType)
         (lid : LocalId) (cause : Span) (rest : List LowerStmt)
         (pools : ScalarType → List RegId)
         (local_regs : List (LocalId × RegId × ScalarType × Span))
         (us : Option Span) (ha : Bool) (ty : ScalarType),
       local_ty lid = some ty → pools ty = [] →
       assign_registers_go fmt local_ty (.regAlloc lid cause :: rest)
           pools local_regs us ha =
         .error (.scriptTooComplex
           ⟨cause, local_regs.filterMap fun e =>
              if e.2.2.1 = ty then some (e.2.1, e.2.2.1, e.2.2.2) else none⟩))
    ∧ assign_registers anm_fmt c3_local_ty c3_code_ok = .ok (c3_out, [10001])
    ∧ assign_registers anm_fmt c3_local_ty c3_code_bad =
        .error (.scriptTooComplex ⟨7, []⟩) := by
  refine ⟨?_, ?_, ?_, ?_, ?_, by rfl, by rfl⟩
  · intro fmt local_ty code code' allocs h r hr
    unfold assign_registers at h
    refine assign_registers_go_allocs fmt local_ty (get_used_regs code) code _ _
      none false code' allocs ?_ ?_ h r hr
    · intro ty x hx hmem
      have hnc := List.of_mem_filter hx
      simp [hmem] at hnc
    · intro e he
      cases he
  · intro fmt local_ty code
    rfl
  · intro fmt local_ty lid cause rest pools local_regs us ha ty reg pool_rest
      hty hpool hfind
    conv_lhs => rw [assign_registers_go]
    rw [hty]
    dsimp only
    rw [hpool]
    dsimp only
    rw [if_neg (by simp [hfind])]
    simp only [bind, Except.bind]
    cases hgo : assign_registers_go fmt local_ty rest
        (fun t => if t = ty then pool_rest else pools t)
        (local_regs ++ [(lid, reg, ty, cause)]) (some (us.getD cause)) ha with
    | error e => simp [hgo, Except.map]
    | ok p => simp [hgo, Except.map]
  · intro fmt local_ty lid rest pools local_regs us ha ity a reg b c hty hfind
    conv_lhs => rw [assign_registers_go]
    rw [hty]
    dsimp only
    rw [hfind]
    dsimp only
    simp only [bind, Except.bind]
    cases hgo : assign_registers_go fmt local_ty rest
        (fun t => if t = ity then reg :: pools t else pools t)
        (local_regs.filter (fun e => ¬ e.1 = lid)) us ha with
    | error e => simp [hgo, Except.map]
    | ok p => simp [hgo, Except.map]
  · intro fmt local_ty lid cause rest pools local_regs us ha ty hty hpool
    conv_lhs => rw [assign_registers_go]
    rw [hty]
    dsimp only
    rw [hpool]

/-- Witness: the no-clobber conjunct at the concrete sub `c3_code_ok`, whose
allocation list is `[10001]`; 10001 is indeed not a directly-used register. -/
theorem scratch_register_no_clobber_witness :
    (10001 : RegId) ∉ get_used_regs c3_code_ok :=
  scratch_register_no_clobber.1 anm_fmt c3_local_ty c3_code_ok c3_out [10001]
    (by rfl) 10001 (by decide)

/-- **C8.**  Name resolution walks the rib stack innermost-to-outermost
(1); a `LocalBarrier` records its cause, first barrier winning (2); a match
in a `Locals`/`Params` rib after a crossed barrier is the cannot-use-local
error naming that first barrier (3); a match in a `Mapfile` rib of the
wrong language is skipped, recording the language (4), while the right
language resolves (5); an exhausted walk is the unknown-identifier error
carrying the recorded language for its note (6).  Concretely: a local
behind a function barrier errors (7), an `anm` register alias is invisible
to `ecl` code and the error notes `anm` (8), and the same alias resolves
from `anm` code (9). -/
theorem rib_walk_resolution_rules :
    (∀ (ns : Namespace) (sp : Span) (al : Option LanguageKey) (idt : Ident)
       (ribs : List Rib),
       RibStacks_resolve ns sp al idt ribs =
         resolve_go ns sp al idt ribs.reverse none none)
    ∧ (∀ (ns : Namespace) (sp : Span) (al : Option LanguageKey) (idt : Ident)
         (rib : Rib) (rest : List Rib) (clb : Option String)
         (lwi : Option LanguageKey) (cause : String),
       rib.kind.local_barrier_cause = some cause →
       rib.get idt = none →
       resolve_go ns sp al idt (rib :: rest) clb lwi =
         resolve_go ns sp al idt rest (some (clb.getD cause)) lwi)
    ∧ (∀ (ns : Namespace) (sp : Span) (al : Option LanguageKey) (idt : Ident)
         (rib : Rib) (rest : List Rib) (cause : String)
         (lwi : Option LanguageKey) (d : RibEntry),
       rib.kind.holds_locals = true →
       rib.get idt = some d →
       resolve_go ns sp al idt (rib :: rest) (some cause) lwi =
         .error (.cannotUseLocalOutside ((rib.noun).getD "") cause sp
           d.def_ident_span))
    ∧ (∀ (ns : Namespace) (sp : Span) (al : Option LanguageKey) (idt : Ident)
         (rib : Rib) (lang : LanguageKey) (rest : List Rib)
         (clb : Option String) (lwi : Option LanguageKey) (d : RibEntry),
       rib.kind = .mapfile lang →
       rib.get idt = some d →
       al ≠ some lang →
       resolve_go ns sp al idt (rib :: rest) clb lwi =
         resolve_go ns sp al idt rest clb (some lang))
    ∧ (∀ (ns : Namespace) (sp : Span) (al : Option LanguageKey) (idt : Ident)
         (rib : Rib) (lang : LanguageKey) (rest : List Rib)
         (clb : Option String) (lwi : Option LanguageKey) (d : RibEntry),
       rib.kind = .mapfile lang →
       rib.get idt = some d →
       al = some lang →
       resolve_go ns sp al idt (rib :: rest) clb lwi = .ok d.def_id)
    ∧ (∀ (ns : Namespace) (sp : Span) (al : Option LanguageKey) (idt : Ident)
         (clb : Option String) (lwi : Option LanguageKey),
       resolve_go ns sp al idt [] clb lwi =
         .error (.unknownIdent idt sp lwi))
    ∧ RibStacks_resolve .vars 5 none "x" c8_stack1 =
        .error (.cannotUseLocalOutside "local" "function" 5 1)
    ∧ RibStacks_resolve .vars 6 (some .ecl) "FOO" c8_stack2 =
        .error (.unknownIdent "FOO" 6 (some .anm))
    ∧ RibStacks_resolve .vars 6 (some .anm) "FOO" c8_stack2 = .ok 42 := by
  refine ⟨fun _ _ _ _ _ => rfl, ?_, ?_, ?_, ?_, fun _ _ _ _ _ _ => rfl,
    by rfl, by rfl, by rfl⟩
  · intro ns sp al idt rib rest clb lwi cause hcause hget
    conv_lhs => rw [resolve_go]
    rw [hcause]
    dsimp only
    rw [hget]
  · intro ns sp al idt rib rest cause lwi d hh hget
    obtain ⟨rns, rkind, rdefs⟩ := rib
    cases rkind <;> simp only [RibKind.holds_locals, Bool.false_eq_true] at hh
    all_goals
      (conv_lhs => rw [resolve_go]
       dsimp only [RibKind.local_barrier_cause]
       rw [hget]
       dsimp only [RibKind.holds_locals]
       simp [Rib.noun])
  · intro ns sp al idt rib lang rest clb lwi d hk hget hal
    obtain ⟨rns, rkind, rdefs⟩ := rib
    cases hk
    conv_lhs => rw [resolve_go]
    dsimp only [RibKind.local_barrier_cause]
    rw [hget]
    dsimp only [RibKind.holds_locals]
    rw [if_neg (by simp)]
    rw [if_neg hal]
  · intro ns sp al idt rib lang rest clb lwi d hk hget hal
    obtain ⟨rns, rkind, rdefs⟩ := rib
    cases hk
    conv_lhs => rw [resolve_go]
    dsimp only [RibKind.local_barrier_cause]
    rw [hget]
    dsimp only [RibKind.holds_locals]
    rw [if_neg (by simp)]
    rw [if_pos hal]

/-- Witness: the barred-local conjunct at the concrete outer rib: using
`x` behind a `"function"` barrier is the cannot-use-local error. -/
theorem rib_walk_resolution_rules_witness :
    resolve_go .vars 5 none "x" [c8_locals_outer] (some "function") none =
      .error (.cannotUseLocalOutside "local" "function" 5 1) :=
  rib_walk_resolution_rules.2.2.1 .vars 5 none "x" c8_locals_outer []
    "function" none ⟨7, 1⟩ (by rfl) (by rfl)

/-- **C1.** Constant folding of integer expressions matches the spec's
arithmetic: `<<` wraps modulo `2^32` (the result's bit pattern is the
shifted pattern mod `2^32`), `>>` is arithmetic (floor division by the
power of two), `>>>` is unsigned/logical (division of the unsigned bit
pattern); and for the body `const int SHL = 0xFFABCD01 << 4; int x = SHL;`
the emitted assign instruction's second argument bits equal `0xFABCD010`. -/
theorem shift_folding_and_example :
    (∀ a b : Int, toBits32 (constEvalIntShift .ShiftLeft a b)
        = (toBits32 a * 2^(shiftAmt b)) % 2^32)
    ∧ (∀ a b : Int, inRange32 a →
        constEvalIntShift .ShiftRightSigned a b = Int.fdiv a (2^(shiftAmt b)))
    ∧ (∀ a b : Int, toBits32 (constEvalIntShift .ShiftRightUnsigned a b)
        = toBits32 a / 2^(shiftAmt b))
    ∧ const_eval_int .ShiftLeft (toSigned32 0xFFABCD01) 4 = some c1_folded
    ∧ toBits32 c1_folded = 0xFABCD010
    ∧ (lower_sub_ast_to_instrs 10 anm_ts anm_fmt c1_local_ty 1 c1_stmts).toOption
        = some [⟨0, 17, [.raw ⟨.int 10000, true⟩, .raw ⟨.int c1_folded, false⟩]⟩] := by
  refine ⟨shl_bits, sar_eq_fdiv, ushr_bits, rfl, by decide, by decide⟩

/-- Witness for `shift_folding_and_example`: the arithmetic-shift conjunct
at the concrete input `-8 >> 1`. -/
theorem shift_folding_and_example_witness :
    constEvalIntShift .ShiftRightSigned (-8) 1 = Int.fdiv (-8) (2^(shiftAmt 1)) :=
  shift_folding_and_example.2.1 (-8) 1 (by decide)

/-- **C2.** When the lowerer compiles `v = a ⊕ b` with a complex operand,
it evaluates that operand directly into the destination `v` exactly when no
type cast is needed (`tmp_ty = read_ty`) and the other operand does not use
a variable aliasing `v`; otherwise it allocates a fresh scratch temporary
(`define_temporary` returns the state's next fresh local and first pushes
its `RegAlloc`).  Aliasing is judged by the resolved storage (`eq_upto_ty`
ignores the sigil), so two mapfile aliases of the same register id alias
each other.  Hence for `FOO = BAR + (I2 * 2);` with `FOO` and `BAR` both
register 10003, the first emitted instruction's first operand is the first
scratch register 10000, not 10003. -/
theorem binop_operand_reuse_condition :
    (∀ (s1 s2 : Option VarSigil) (id : VarId),
        Var.eq_upto_ty ⟨s1, id⟩ ⟨s2, id⟩ = true)
    ∧ (∀ (s1 s2 : Option VarSigil) (i j : RegId), i ≠ j →
        Var.eq_upto_ty ⟨s1, .reg i⟩ ⟨s2, .reg j⟩ = false)
    ∧ (∀ (fuel : Nat) (ts : TypeSystem) (fmt : InstrFormat) (span : Span)
        (time : Int) (var : Var) (a : Expr) (binop : BinOpKind) (b : Expr)
        (st : TmpState) (la : LowerArg) (tya : ScalarType)
        (tb : Expr) (ttb trb : ScalarType),
        classify_expr ts st a = .ok (.simple la tya) →
        classify_expr ts st b = .ok (.needsTemp tb ttb trb) →
        lower_assign_direct_binop (fuel+1) ts fmt span time var a binop b st =
          if ttb = trb && !(expr_uses_var a var) then
            (do
              let (var_as_expr, out1, st) ←
                compute_temporary_expr fuel ts fmt span time var tb ttb trb st
              let (out2, st) ←
                lower_assign_direct_binop fuel ts fmt span time var a binop var_as_expr st
              .ok (out1 ++ out2, st))
          else
            (do
              let (tmp_id, tmp_as_expr, out1, st) ←
                define_temporary fuel ts fmt span time tb ttb trb st
              let (out2, st) ←
                lower_assign_direct_binop fuel ts fmt span time var a binop tmp_as_expr st
              .ok (out1 ++ out2 ++ [.regFree tmp_id], st)))
    ∧ (∀ (fuel : Nat) (ts : TypeSystem) (fmt : InstrFormat) (span : Span)
        (time : Int) (te : Expr) (tt tr : ScalarType) (st : TmpState)
        (res : LocalId × Expr × List LowerStmt × TmpState),
        define_temporary (fuel+1) ts fmt span time te tt tr st = .ok res →
        res.1 = st.next_tmp
        ∧ res.2.2.1.head? = some (.regAlloc st.next_tmp span))
    ∧ (lower_sub_ast_to_instrs 10 anm_ts anm_fmt (fun _ => none) 0 scenario_stmts).toOption
        = some [ ⟨0, 20, [.raw ⟨.int 10000, true⟩, .raw ⟨.int 10002, true⟩,
                          .raw ⟨.int 2, false⟩]⟩
               , ⟨0, 18, [.raw ⟨.int 10003, true⟩, .raw ⟨.int 10003, true⟩,
                          .raw ⟨.int 10000, true⟩]⟩
               , ⟨0, 17, [.raw ⟨.int 10003, true⟩, .raw ⟨.int 10001, true⟩]⟩ ] := by
  refine ⟨fun s1 s2 id => ?_, fun s1 s2 i j hij => ?_, ?_, ?_, by decide⟩
  · simp [Var.eq_upto_ty]
  · simp [Var.eq_upto_ty, hij]
  · intro fuel ts fmt span time var a binop b st la tya tb ttb trb ha hb
    conv_lhs => rw [lower_assign_direct_binop]
    rw [ha, hb]
    simp only [bind, Except.bind]
  · intro fuel ts fmt span time te tt tr st res h
    rw [define_temporary] at h
    unfold allocate_temporary at h
    simp only [TmpState.declare_temporary, bind, Except.bind] at h
    cases hsg : ScalarType.sigil tt with
    | none => rw [hsg] at h; cases h
    | some sg =>
      rw [hsg] at h
      split at h
      · cases h
      · rename_i r heq
        simp only [Except.ok.injEq] at heq
        subst heq
        split at h
        · cases h
        · cases h
          simp

/-- Witness for `binop_operand_reuse_condition`: the aliasing inequality,
the branch rule, and the fresh-temporary fact, each at concrete inputs
drawn from the scenario. -/
theorem binop_operand_reuse_condition_witness :
    Var.eq_upto_ty ⟨none, .reg 10001⟩ ⟨some .int, .reg 10002⟩ = false
    ∧ c2_define_res.1 = 0
    ∧ c2_define_res.2.2.1.head? = some (.regAlloc 0 1) := by
  refine ⟨binop_operand_reuse_condition.2.1 none (some .int) 10001 10002 (by decide), ?_, ?_⟩
  · exact (binop_operand_reuse_condition.2.2.2.1 3 anm_ts anm_fmt 1 0
      c2_b_expr .int .int c2_tmp_state0 c2_define_res (by rfl)).1
  · exact (binop_operand_reuse_condition.2.2.2.1 3 anm_ts anm_fmt 1 0
      c2_b_expr .int .int c2_tmp_state0 c2_define_res (by rfl)).2

end Truth
